import Mathlib

/-!
Shallow embedding of the Translator Node Annotator service
(`web/handlers/annotator.py`) and proofs about its behaviour.

Python dicts are modelled as insertion-ordered association lists with
unique keys (`List (String × α)`); JSON values as the inductive `JValue`;
Python exceptions as the `PyError` type threaded through `Except` or
carried in an explicit run-state record.  The external biothings
client (`biothings_client`, out of scope per the spec) is a parameter
(`Client`): a function from entity type, query list, fields and scopes
to the list of returned annotation records.
-/

set_option autoImplicit false

namespace Annot

/-- JSON-like values, the universe of Python objects flowing through the
annotator: strings, integers, booleans, null, arrays and (ordered) objects. -/
inductive JValue where
  | str : String → JValue
  | num : Int → JValue
  | bool : Bool → JValue
  | null : JValue
  | arr : List JValue → JValue
  | obj : List (String × JValue) → JValue

/-- `d.get(k)` / `d[k]` lookup on a Python dict modelled as an assoc list:
first (unique) occurrence of the key. -/
def dget {α : Type} (d : List (String × α)) (k : String) : Option α :=
  match d with
  | [] => none
  | (k', v) :: rest => if k' = k then some v else dget rest k

/-- `d[k] = v` on a Python dict: update the existing entry in place, else
append a new entry at the end (insertion order preserved). -/
def dset {α : Type} (d : List (String × α)) (k : String) (v : α) :
    List (String × α) :=
  match d with
  | [] => [(k, v)]
  | (k', v') :: rest =>
      if k' = k then (k', v) :: rest else (k', v') :: dset rest k v

/-- `d.pop(k, None)` on a Python dict: remove the entry with key `k`. -/
def dpop {α : Type} (d : List (String × α)) (k : String) : List (String × α) :=
  match d with
  | [] => []
  | (k', v') :: rest => if k' = k then rest else (k', v') :: dpop rest k

/-- `k in d` membership test on a Python dict. -/
def dmem {α : Type} (d : List (String × α)) (k : String) : Bool :=
  (dget d k).isSome

@[simp] theorem dget_nil {α : Type} (k : String) : dget ([] : List (String × α)) k = none := rfl

@[simp] theorem dget_cons {α : Type} (k' k : String) (v : α) (rest : List (String × α)) :
    dget ((k', v) :: rest) k = if k' = k then some v else dget rest k := rfl

@[simp] theorem dset_nil {α : Type} (k : String) (v : α) :
    dset ([] : List (String × α)) k v = [(k, v)] := rfl

@[simp] theorem dset_cons {α : Type} (k' k : String) (v' v : α) (rest : List (String × α)) :
    dset ((k', v') :: rest) k v
      = if k' = k then (k', v) :: rest else (k', v') :: dset rest k v := rfl

theorem dget_dset_self {α : Type} (d : List (String × α)) (k : String) (v : α) :
    dget (dset d k v) k = some v := by
  induction d with
  | nil => simp [dget, dset]
  | cons hd tl ih =>
      obtain ⟨k', v'⟩ := hd
      by_cases h : k' = k <;> simp [dget, dset, h, ih]

theorem dget_dset_ne {α : Type} (d : List (String × α)) (k k' : String) (v : α)
    (h : k ≠ k') : dget (dset d k v) k' = dget d k' := by
  induction d with
  | nil => simp [dget, dset, h]
  | cons hd tl ih =>
      obtain ⟨k0, v0⟩ := hd
      by_cases h0 : k0 = k
      · subst h0
        simp [dget, dset, h]
      · simp only [dset, if_neg h0]
        by_cases h1 : k0 = k' <;> simp [dget, h1, ih]

/-- Setting an already-present key does not change the key sequence. -/
theorem map_fst_dset_of_mem {α : Type} (d : List (String × α)) (k : String) (v : α)
    (h : (dget d k).isSome) : (dset d k v).map Prod.fst = d.map Prod.fst := by
  induction d with
  | nil => simp [dget] at h
  | cons hd tl ih =>
      obtain ⟨k0, v0⟩ := hd
      by_cases h0 : k0 = k
      · simp [dset, h0]
      · simp [dget, h0] at h
        simp [dset, h0, ih h]

/-! ### Python exceptions -/

/-- Python exceptions that can escape the annotator code.  `invalidCurie`
and `trapiInput` model the two user-input error classes defined in
`annotator.py`; `keyError` models an uncaught `KeyError`; `typeError`
collapses the remaining Python runtime errors (`TypeError` /
`AttributeError`) raised on ill-shaped values. -/
inductive PyError where
  | invalidCurie : String → PyError
  | trapiInput : String → PyError
  | keyError : String → PyError
  | typeError : String → PyError
deriving DecidableEq

instance {ε α : Type} [DecidableEq ε] [DecidableEq α] : DecidableEq (Except ε α) := fun a b =>
  match a, b with
  | .ok x, .ok y =>
      if h : x = y then .isTrue (by rw [h])
      else .isFalse (by intro hc; injection hc; contradiction)
  | .error x, .error y =>
      if h : x = y then .isTrue (by rw [h])
      else .isFalse (by intro hc; injection hc; contradiction)
  | .ok _, .error _ => .isFalse (by intro hc; injection hc)
  | .error _, .ok _ => .isFalse (by intro hc; injection hc)

/-! ### Curie parsing (`parse_curie` and `BIOLINK_PREFIX_to_BioThings`) -/

/-- `curie.split(":", 1)` on the underlying character list: `none` when the
list contains no colon (Python raises in that case), otherwise the part
before the first colon and everything after it. -/
def splitListFirst : List Char → Option (List Char × List Char)
  | [] => none
  | c :: cs =>
      if c = ':' then some ([], cs)
      else (splitListFirst cs).map (fun p => (c :: p.1, p.2))

/-- `curie.split(":", 1)` guarded by the `":" not in curie` check of
`parse_curie`. -/
def splitFirstColon (s : String) : Option (String × String) :=
  (splitListFirst s.data).map (fun p => (String.mk p.1, String.mk p.2))

/-- One entry of `BIOLINK_PREFIX_to_BioThings`: the BioThings entity type,
the optional lookup field, and the `keep_prefix` flag (absent keys default
to `False`).  No entry of the source table carries a `converter` (the only
candidate is commented out), so the converter slot is omitted and
`parse_curie`'s converter step is the identity. -/
structure PrefixRule where
  type : String
  field : Option String
  keepPrefix : Bool
deriving DecidableEq

/-- The `BIOLINK_PREFIX_to_BioThings` module constant of `annotator.py`. -/
def BIOLINK_PREFIX_to_BioThings : List (String × PrefixRule) :=
  [ ("NCBIGene", ⟨"gene", some "entrezgene", false⟩),
    ("ENSEMBL", ⟨"gene", some "ensembl.gene", false⟩),
    ("UniProtKB", ⟨"gene", some "uniprot.Swiss-Prot", false⟩),
    ("INCHIKEY", ⟨"chem", none, false⟩),
    ("CHEMBL.COMPOUND", ⟨"chem", some "chembl.molecule_chembl_id", false⟩),
    ("PUBCHEM.COMPOUND", ⟨"chem", some "pubchem.cid", false⟩),
    ("CHEBI", ⟨"chem", some "chebi.id", true⟩),
    ("UNII", ⟨"chem", some "unii.unii", false⟩),
    ("MONDO", ⟨"disease", some "mondo.mondo", true⟩),
    ("DOID", ⟨"disease", some "disease_ontology.doid", true⟩) ]

/-- `Annotator.parse_curie` (both projections at once; the
`return_type` / `return_id` flags of the Python method only select which
component of this pair is returned).  Raises `InvalidCurieError` when the
input contains no colon.  The entity type is the table entry's `type`
(every table entry has a truthy type, so the `not _type` fallback fires
exactly when the prefix is absent from the table); the lookup id is the
local part after the first colon, except that the full curie is kept when
the prefix is unknown or the entry sets `keep_prefix`. -/
def parse_curie (curie : String) : Except PyError (Option String × String) :=
  match splitFirstColon curie with
  | none => .error (.invalidCurie ("Invalid input curie id: " ++ curie))
  | some (pfx, localId) =>
      match dget BIOLINK_PREFIX_to_BioThings pfx with
      | none => .ok (none, curie)
      | some rule =>
          .ok (some rule.type, if rule.keepPrefix then curie else localId)

/-! ### Response transformation (`ResponseTransformer`, `Annotator.transform`) -/

/-- Python truthiness of a JSON value (`if chembl:` etc.). -/
def truthy : JValue → Bool
  | .str s => !s.isEmpty
  | .num n => n != 0
  | .bool b => b
  | .null => false
  | .arr l => !l.isEmpty
  | .obj o => !o.isEmpty

/-- `append_prefix(id, prefix)`: prepend `prefix + ":"` unless the id
already starts with the prefix. -/
def appendPfx (s pfx : String) : String :=
  if pfx.isPrefixOf s then s else pfx ++ ":" ++ s

/-- Body of the `for doc in xli` loop of `_append_mesh_prefix`, applied to a
single drug-indication entry: when the entry is a dict with a `mesh_id`
key, that field gets the `MESH` prefix.  A string entry is returned
unchanged (`"mesh_id" in doc` is a substring test that the loop never
follows with a write when false; a write on a string would raise, which
cannot happen for the single characters produced by string iteration one
level up); other non-dict entries raise in Python and are collapsed to
`typeError`. -/
def meshFixDoc : JValue → Except PyError JValue
  | .obj o =>
      match dget o "mesh_id" with
      | none => .ok (.obj o)
      | some (.str s) => .ok (.obj (dset o "mesh_id" (.str (appendPfx s "MESH"))))
      | some _ => .error (.typeError "startswith on non-string mesh_id")
  | .str s => .ok (.str s)
  | _ => .error (.typeError "membership test on non-container")

/-- `_append_mesh_prefix(chembl)`: fix every entry of
`chembl["drug_indications"]`.  A missing key yields the empty default (the
loop is a no-op); `chembl.get` on a non-dict raises (collapsed to
`typeError`); iterating a string yields single characters, none of which
contains `mesh_id`, so the loop is a no-op. -/
def chemblMeshAppend : JValue → Except PyError JValue
  | .obj o =>
      match dget o "drug_indications" with
      | none => .ok (.obj o)
      | some (.arr docs) =>
          (docs.mapM meshFixDoc).map (fun ds => .obj (dset o "drug_indications" (.arr ds)))
      | some (.str s) => .ok (.obj (dset o "drug_indications" (.str s)))
      | some _ => .error (.typeError "iterating a non-sequence")
  | _ => .error (.typeError "get on non-dict")

/-- `ResponseTransformer._transform_chembl_drug_indications` on a record:
add the `MESH` prefix to `chembl.drug_indications.mesh_id`.  A falsy or
absent `chembl` value is left alone; a list-valued `chembl` is fixed
element-wise. -/
def transformChemblDrugIndications (res : List (String × JValue)) :
    Except PyError (List (String × JValue)) :=
  match dget res "chembl" with
  | none => .ok res
  | some chembl =>
      if truthy chembl then
        match chembl with
        | .arr l =>
            (l.mapM chemblMeshAppend).map (fun l' => dset res "chembl" (.arr l'))
        | c => (chemblMeshAppend c).map (fun c' => dset res "chembl" c')
      else .ok res

/-- `Annotator.transform` on one annotation record: pop the bookkeeping
`query` and `_score` keys, then apply the response transformer
(`ResponseTransformer.transform` introspects exactly one `_transform_*`
rule, the chembl drug-indications one).  `res.pop` on a non-dict raises
(collapsed to `typeError`). -/
def transform (res : JValue) : Except PyError JValue :=
  match res with
  | .obj o => (transformChemblDrugIndications (dpop (dpop o "query") "_score")).map .obj
  | _ => .error (.typeError "pop on non-dict")

/-! ### Lookup client adapter (`list2dict`, `query_biothings`) -/

/-- The `list2dict(li, key)` helper: group records by their value under
`key`, preserving first-seen key order and within-key record order.  A
record without the key raises `KeyError`; grouping keys are modelled as
strings (the biothings service echoes the string query id; a non-string
value is collapsed to `typeError`). -/
def list2dictAux (key : String) :
    List JValue → List (String × List JValue) → Except PyError (List (String × List JValue))
  | [], out => .ok out
  | d :: rest, out =>
      match d with
      | .obj o =>
          match dget o key with
          | some (.str k) =>
              match dget out k with
              | none => list2dictAux key rest (dset out k [d])
              | some l => list2dictAux key rest (dset out k (l ++ [d]))
          | some _ => .error (.typeError "non-string grouping key")
          | none => .error (.keyError key)
      | _ => .error (.typeError "subscripting a non-dict record")

/-- `list2dict(li, key)` with the empty initial accumulator. -/
def list2dict (li : List JValue) (key : String) :
    Except PyError (List (String × List JValue)) :=
  list2dictAux key li []

/-- The fields argument handed to the external client: either the entity
type's configured default field list or a caller-supplied string. -/
inductive FieldsArg where
  | preset : List String → FieldsArg
  | custom : String → FieldsArg
deriving DecidableEq

/-- The external biothings client, a black box per the spec: entity type,
query id list, fields and scopes in; annotation record list out. -/
def Client : Type := String → List String → FieldsArg → List String → List JValue

/-- Per-entity-type configuration from `Annotator.annotator_clients`
(the long-lived client handles themselves are the `Client` parameter). -/
structure ClientConf where
  fields : List String
  scopes : List String
deriving DecidableEq

/-- `Annotator.annotator_clients`: the gene / chem / disease entries with
their `fields` and `scopes` lists, exactly as in the source (including the
two missing commas in the disease `fields` list, which Python silently
turns into concatenated adjacent string literals). -/
def annotator_clients : List (String × ClientConf) :=
  [ ("gene",
     ⟨["name", "symbol", "summary", "type_of_gene", "MIM", "HGNC", "MGI", "RGD",
       "alias", "interpro"],
      ["entrezgene", "ensemblgene", "uniprot", "accession", "retired"]⟩),
    ("chem",
     ⟨["pubchem.cid", "pubchem.inchikey", "chembl.molecule_chembl_id",
       "drugbank.id", "chebi.id", "unii.unii", "chebi.name", "chembl.pref_name",
       "chebi.iupac", "chembl.smiles", "pubchem.inchi",
       "pubchem.molecular_formula", "pubchem.molecular_weight",
       "chembl.molecule_type", "chembl.structure_type", "chebi.relationship",
       "unichem.rxnorm", "pharmgkb.trade_names", "chembl.drug_indications",
       "aeolus.indications", "chembl.drug_mechanisms",
       "chembl.atc_classifications", "chembl.max_phase", "chembl.first_approval",
       "drugcentral.approval", "chembl.first_in_class", "chembl.inorganic_flag",
       "chembl.prodrug", "chembl.therapeutic_flag", "cheml.withdrawn_flag",
       "drugcentral.drug_dosage", "ndc.routename", "ndc.producttypename",
       "ndc.pharm_classes"],
      ["_id", "chebi.id", "chembl.molecule_chembl_id", "pubchem.cid",
       "drugbank.id", "unii.unii"]⟩),
    ("disease",
     ⟨["disease_ontology.doidmondo.mondo", "umls.umls", "disease_ontology.name",
       "mondo.labelmondo.definition", "disease_ontology.def", "mondo.xrefs",
       "disease_ontology.xrefs", "mondo.synonym", "disease_ontology.synonyms"],
      ["mondo.mondo", "disease_ontology.doid", "umls.umls"]⟩) ]

/-- `fields = fields or self.annotator_clients[node_type]["fields"]`: the
caller-supplied fields string, defaulted when absent or falsy (empty). -/
def fieldsArgOf (conf : ClientConf) (fields : Option String) : FieldsArg :=
  match fields with
  | some s => if s = "" then .preset conf.fields else .custom s
  | none => .preset conf.fields

/-- The raw record list returned by the one batched `querymany` call that
`query_biothings` issues (empty when the entity type has no client
configuration — in that case `query_biothings` raises before calling). -/
def clientRawCall (client : Client) (node_type : String)
    (query_list : List String) (fields : Option String) : List JValue :=
  match dget annotator_clients node_type with
  | none => []
  | some conf => client node_type query_list (fieldsArgOf conf fields) conf.scopes

/-- `Annotator.query_biothings`: pick the per-type client configuration,
default the fields when the caller passed none (or the falsy empty
string), issue one batched `querymany` call, and group the returned
records by their `query` key. -/
def query_biothings (client : Client) (node_type : String)
    (query_list : List String) (fields : Option String) :
    Except PyError (List (String × List JValue)) :=
  match dget annotator_clients node_type with
  | none => .error (.keyError node_type)
  | some conf =>
      list2dict (client node_type query_list (fieldsArgOf conf fields) conf.scopes) "query"

/-! ### Single-curie annotation (`Annotator.annotate_curie`) -/

/-- `Annotator.annotate_curie`: parse the curie (unsupported prefixes are
fatal here), issue a single-id lookup, and return `{curie: res}` — where
`res` is the grouped raw lookup mapping when `raw` is set, and the list of
transformed records under the stripped lookup id otherwise. -/
def annotate_curie (client : Client) (curie : String) (raw : Bool)
    (fields : Option String) : Except PyError (List (String × JValue)) :=
  match parse_curie curie with
  | .error e => .error e
  | .ok (nodeType?, lookupId) =>
      match nodeType? with
      | none => .error (.invalidCurie ("Unsupported Curie prefix: " ++ curie))
      | some nodeType =>
          match query_biothings client nodeType [lookupId] fields with
          | .error e => .error e
          | .ok res =>
              if raw then
                .ok [(curie, .obj (res.map (fun p => (p.1, .arr p.2))))]
              else
                match dget res lookupId with
                | none => .error (.keyError lookupId)
                | some recs =>
                    match recs.mapM transform with
                    | .error e => .error e
                    | .ok recs2 => .ok [(curie, .arr recs2)]

/-! ### TRAPI batch annotation (`Annotator.annotate_trapi`) -/

/-- A TRAPI knowledge-graph node mapping: node id (a curie) to node object. -/
abbrev NodeDict := List (String × JValue)

/-- Observable outcome of one `annotate_trapi` run: the node mapping (the
mutated-in-place Python dict), the batched lookup calls issued to the
external client (entity type and query-id list, in order), the per-node
attribute writes performed (original node id and attached envelope, in
order), and the exception that escaped the call, if any. -/
structure TrapiRun where
  nodes : NodeDict
  calls : List (String × List String)
  writes : List (String × JValue)
  err : Option PyError

/-- The `limit` truncation loop of `annotate_trapi`: a 1-based counter `i`
walks the nodes in iteration order and the loop breaks as soon as
`i > limit`. -/
def takeNodesAux (limit : Int) : NodeDict → Int → NodeDict
  | [], _ => []
  | x :: xs, i => if i + 1 > limit then [] else x :: takeNodesAux limit xs (i + 1)

/-- `if limit: ...` truncation: `limit` of `None` or `0` is falsy and leaves
the node mapping untouched; otherwise keep the first nodes by iteration
order (a negative limit breaks immediately, yielding the empty mapping). -/
def truncateNodes (limit : Option Int) (node_d : NodeDict) : NodeDict :=
  match limit with
  | none => node_d
  | some l => if l = 0 then node_d else takeNodesAux l node_d 0

/-- One step of building `node_list_by_type`: start a singleton list for a
new entity type, else append the node id to the type's list. -/
def addToGroup (g : List (String × List String)) (t id : String) :
    List (String × List String) :=
  match dget g t with
  | none => dset g t [id]
  | some l => dset g t (l ++ [id])

/-- The grouping loop of `annotate_trapi`: resolve each node id's entity
type with `parse_curie`; ids with an unresolved (unknown-prefix) type are
skipped with a logged warning, while a `parse_curie` exception (id without
a colon) propagates and aborts. -/
def groupByTypeAux : List String → List (String × List String) →
    Except PyError (List (String × List String))
  | [], acc => .ok acc
  | id :: rest, acc =>
      match parse_curie id with
      | .error e => .error e
      | .ok (none, _) => groupByTypeAux rest acc
      | .ok (some t, _) => groupByTypeAux rest (addToGroup acc t id)

/-- `node_list_by_type` built from the node ids in iteration order. -/
def groupByType (ids : List String) : Except PyError (List (String × List String)) :=
  groupByTypeAux ids []

/-- The attribute envelope wrapped around annotation results before they
are attached to a node. -/
def mkEnvelope (v : JValue) : JValue :=
  .obj [("attribute_type_id", .str "biothings_annotations"), ("value", v)]

/-- The attachment step of the result loop: with `append` the envelope is
appended to the node's existing `attributes` list (`KeyError` when the
node has no `attributes` key), otherwise `attributes` is replaced by the
one-element list holding the envelope. -/
def attachRes (append : Bool) (node_d : NodeDict) (orig : String) (env : JValue) :
    Except PyError NodeDict :=
  if append then
    match dget node_d orig with
    | none => .error (.keyError orig)
    | some (.obj node) =>
        match dget node "attributes" with
        | some (.arr l) =>
            .ok (dset node_d orig (.obj (dset node "attributes" (.arr (l ++ [env])))))
        | some _ => .error (.typeError "append on non-list attributes")
        | none => .error (.keyError "attributes")
    | some _ => .error (.typeError "subscripting a non-dict node")
  else
    match dget node_d orig with
    | none => .error (.keyError orig)
    | some (.obj node) =>
        .ok (dset node_d orig (.obj (dset node "attributes" (.arr [env]))))
    | some _ => .error (.typeError "item assignment on non-dict node")

/-- Body of the `for node_id in res_by_id` loop: recover the original node
id through the reverse map `node_id_d` (`KeyError` when the client echoed
a query id that was never submitted), transform each record unless `raw`
(the grouped result is always a list, so the `isinstance(res, list)`
branch is the one taken), wrap in the envelope, and attach.  Returns the
updated node mapping together with the performed write. -/
def attachEntry (append raw : Bool) (node_id_d : List (String × String))
    (node_d : NodeDict) (qid : String) (recs : List JValue) :
    Except PyError (NodeDict × (String × JValue)) :=
  match dget node_id_d qid with
  | none => .error (.keyError qid)
  | some orig =>
      match (if raw then .ok recs else recs.mapM transform :
          Except PyError (List JValue)) with
      | .error e => .error e
      | .ok res =>
          let env := mkEnvelope (.arr res)
          match attachRes append node_d orig env with
          | .error e => .error e
          | .ok nd => .ok (nd, (orig, env))

/-- The `for node_id in res_by_id` loop: process the grouped results in
order, mutating the node mapping; the first exception stops the loop and
propagates, leaving the writes already performed in place. -/
def attachLoop (append raw : Bool) (node_id_d : List (String × String)) :
    List (String × List JValue) → NodeDict → List (String × JValue) →
    NodeDict × List (String × JValue) × Option PyError
  | [], node_d, ws => (node_d, ws, none)
  | (qid, recs) :: rest, node_d, ws =>
      match attachEntry append raw node_id_d node_d qid recs with
      | .error e => (node_d, ws, some e)
      | .ok (nd, w) => attachLoop append raw node_id_d rest nd (ws ++ [w])

/-- The reverse map `node_id_d = dict(zip(query_list, node_list))`: a later
duplicate stripped id overwrites an earlier one. -/
def zipDict (query_list node_list : List String) : List (String × String) :=
  (query_list.zip node_list).foldl (fun d p => dset d p.1 p.2) []

/-- Per-entity-type processing of `annotate_trapi`: build the stripped
query-id list and the reverse map `node_id_d`, issue the one batched
lookup, and run the result loop. -/
def processType (client : Client) (append raw : Bool) (fields : Option String)
    (t : String) (ids : List String) (node_d : NodeDict) :
    NodeDict × List (String × List String) × List (String × JValue) × Option PyError :=
  match ids.mapM (fun i => (parse_curie i).map (fun p => p.2)) with
  | .error e => (node_d, [], [], some e)
  | .ok query_list =>
      let node_id_d := zipDict query_list ids
      match query_biothings client t query_list fields with
      | .error e => (node_d, [(t, query_list)], [], some e)
      | .ok res_by_id =>
          let r := attachLoop append raw node_id_d res_by_id node_d []
          (r.1, [(t, query_list)], r.2.1, r.2.2)

/-- The `for node_type in node_list_by_type` loop: entity types absent from
`annotator_clients` (or with an empty id list) are skipped; the first
exception stops the loop and propagates. -/
def processGroups (client : Client) (append raw : Bool) (fields : Option String) :
    List (String × List String) → NodeDict →
    NodeDict × List (String × List String) × List (String × JValue) × Option PyError
  | [], node_d => (node_d, [], [], none)
  | (t, ids) :: rest, node_d =>
      if dmem annotator_clients t && !ids.isEmpty then
        match processType client append raw fields t ids node_d with
        | (nd, cs, ws, none) =>
            let r := processGroups client append raw fields rest nd
            (r.1, cs ++ r.2.1, ws ++ r.2.2.1, r.2.2.2)
        | (nd, cs, ws, some e) => (nd, cs, ws, some e)
      else processGroups client append raw fields rest node_d

/-- `annotate_trapi` after input validation: truncate per `limit`, group
the node ids by resolved entity type, and process each group. -/
def annotate_trapi_core (client : Client) (append raw : Bool)
    (fields : Option String) (limit : Option Int) (node_d : NodeDict) : TrapiRun :=
  let node_t := truncateNodes limit node_d
  match groupByType (node_t.map Prod.fst) with
  | .error e => ⟨node_t, [], [], some e⟩
  | .ok groups =>
      let r := processGroups client append raw fields groups node_t
      ⟨r.1, r.2.1, r.2.2.1, r.2.2.2⟩

/-- Modelled from the spec: `get_dotfield_value("message.knowledge_graph.nodes",
trapi_input)` comes from `biothings.utils.common`, which is not part of this
repository's sources.  Per the spec, the input must resolve to a
`message.knowledge_graph.nodes` mapping; any failure of that resolution
(or of the `assert isinstance(node_d, dict)`) is caught by `annotate_trapi`
and surfaced as `TRAPIInputError`. -/
def getTrapiNodes (input : JValue) : Option NodeDict :=
  match input with
  | .obj o =>
      match dget o "message" with
      | some (.obj m) =>
          match dget m "knowledge_graph" with
          | some (.obj kg) =>
              match dget kg "nodes" with
              | some (.obj nodes) => some nodes
              | _ => none
          | _ => none
      | _ => none
  | _ => none

/-- `Annotator.annotate_trapi` on a full TRAPI input document. -/
def annotate_trapi (client : Client) (input : JValue) (append raw : Bool)
    (fields : Option String) (limit : Option Int) : TrapiRun :=
  match getTrapiNodes input with
  | none => ⟨[], [], [], some (.trapiInput "Invalid input format")⟩
  | some node_d => annotate_trapi_core client append raw fields limit node_d

/-- A well-formed TRAPI input document around a node mapping. -/
def mkTrapi (nodes : NodeDict) : JValue :=
  .obj [("message", .obj [("knowledge_graph", .obj [("nodes", .obj nodes)])])]

/-! ### Derived notions used to state the claims -/

/-- The entity type `parse_curie` resolves for a curie, when it resolves
one (`none` both for unknown prefixes and for unparseable input). -/
def resolvedType (id : String) : Option String :=
  match parse_curie id with
  | .ok (some t, _) => some t
  | _ => none

/-- First-seen-order deduplication. -/
def firstSeen (seen : List String) : List String → List String
  | [] => []
  | t :: rest => if t ∈ seen then firstSeen seen rest else t :: firstSeen (t :: seen) rest

/-- The distinct resolvable entity types spanned by a list of node ids, in
first-seen order: the "K" of the batching property. -/
def distinctResolvedTypes (ids : List String) : List String :=
  firstSeen [] (ids.filterMap resolvedType)

/-- Does a record carry `query` key `k`?  (The grouping predicate of
`list2dict(res, "query")`.) -/
def queryIs (k : String) (d : JValue) : Bool :=
  match d with
  | .obj o =>
      match dget o "query" with
      | some (.str s) => s == k
      | _ => false
  | _ => false

/-- Replay one attribute write on the node mapping: exactly what a
successful `attachRes` does (junk cases never arise on the write log of a
successful attachment). -/
def applyWrite (append : Bool) (node_d : NodeDict) (w : String × JValue) : NodeDict :=
  match dget node_d w.1 with
  | some (.obj node) =>
      if append then
        match dget node "attributes" with
        | some (.arr l) => dset node_d w.1 (.obj (dset node "attributes" (.arr (l ++ [w.2]))))
        | _ => node_d
      else dset node_d w.1 (.obj (dset node "attributes" (.arr [w.2])))
  | _ => node_d

/-! ### Association-list lemmas -/

theorem dget_mem {α : Type} {d : List (String × α)} {k : String} {v : α}
    (h : dget d k = some v) : (k, v) ∈ d := by
  induction d with
  | nil => simp [dget] at h
  | cons hd tl ih =>
      obtain ⟨k0, v0⟩ := hd
      by_cases h0 : k0 = k
      · subst h0
        simp [dget] at h
        simp [h]
      · simp [dget, h0] at h
        exact List.mem_cons_of_mem _ (ih h)

theorem mem_dset {α : Type} {d : List (String × α)} {k : String} {v : α} {p : String × α}
    (h : p ∈ dset d k v) : p ∈ d ∨ p = (k, v) := by
  induction d with
  | nil => simp [dset] at h; simp [h]
  | cons hd tl ih =>
      obtain ⟨k0, v0⟩ := hd
      by_cases h0 : k0 = k
      · simp [dset, h0] at h
        rcases h with h | h
        · right; exact h
        · left; exact List.mem_cons_of_mem _ h
      · simp [dset, h0] at h
        rcases h with h | h
        · left; simp [h]
        · rcases ih h with h' | h'
          · left; exact List.mem_cons_of_mem _ h'
          · right; exact h'

theorem dget_isSome_of_mem_fst {α : Type} {d : List (String × α)} {k : String}
    (h : k ∈ d.map Prod.fst) : (dget d k).isSome := by
  induction d with
  | nil => simp at h
  | cons hd tl ih =>
      obtain ⟨k0, v0⟩ := hd
      by_cases h0 : k0 = k
      · simp [dget, h0]
      · simp only [List.map_cons, List.mem_cons] at h
        rcases h with h | h
        · exact absurd h.symm h0
        · simp [dget, h0, ih h]

theorem dget_of_mem_nodup {α : Type} {d : List (String × α)}
    (hn : (d.map Prod.fst).Nodup) {k : String} {v : α}
    (h : (k, v) ∈ d) : dget d k = some v := by
  induction d with
  | nil => simp at h
  | cons hd tl ih =>
      obtain ⟨k0, v0⟩ := hd
      simp only [List.map_cons, List.nodup_cons] at hn
      rcases List.mem_cons.mp h with h' | h'
      · rw [Prod.mk.injEq] at h'
        obtain ⟨h1, h2⟩ := h'
        subst h1; subst h2
        simp [dget]
      · have hne : k0 ≠ k := by
          intro hk
          subst hk
          exact hn.1 (List.mem_map.mpr ⟨(k0, v), h', rfl⟩)
        simp [dget, hne]
        exact ih hn.2 h'

/-! ### Colon-splitting lemmas -/

theorem splitListFirst_eq_none {cs : List Char} (h : ':' ∉ cs) :
    splitListFirst cs = none := by
  induction cs with
  | nil => rfl
  | cons c cs ih =>
      simp only [List.mem_cons, not_or] at h
      have hc : ¬ c = ':' := fun hcc => h.1 hcc.symm
      simp [splitListFirst, hc, ih h.2]

theorem splitListFirst_isSome {cs : List Char} (h : ':' ∈ cs) :
    ∃ p, splitListFirst cs = some p := by
  induction cs with
  | nil => simp at h
  | cons c cs ih =>
      by_cases hc : c = ':'
      · exact ⟨([], cs), by simp [splitListFirst, hc]⟩
      · rcases List.mem_cons.mp h with h' | h'
        · exact absurd h'.symm hc
        · obtain ⟨p, hp⟩ := ih h'
          exact ⟨(c :: p.1, p.2), by simp [splitListFirst, hc, hp]⟩

theorem splitListFirst_spec {cs p r : List Char}
    (h : splitListFirst cs = some (p, r)) : ':' ∉ p ∧ cs = p ++ ':' :: r := by
  induction cs generalizing p r with
  | nil => simp [splitListFirst] at h
  | cons c cs ih =>
      by_cases hc : c = ':'
      · subst hc
        simp [splitListFirst] at h
        obtain ⟨rfl, rfl⟩ := h
        simp
      · simp only [splitListFirst, if_neg hc] at h
        cases hsp : splitListFirst cs with
        | none => rw [hsp] at h; simp at h
        | some q =>
            obtain ⟨q1, q2⟩ := q
            rw [hsp] at h
            simp only [Option.map_some', Option.some.injEq, Prod.mk.injEq] at h
            obtain ⟨rfl, rfl⟩ := h
            obtain ⟨hq1, hq2⟩ := ih hsp
            constructor
            · intro hmem
              rcases List.mem_cons.mp hmem with h' | h'
              · exact hc h'.symm
              · exact hq1 h'
            · rw [hq2]
              simp

/-! ### `parse_curie` lemmas -/

theorem parse_curie_error_of_no_colon {s : String} (h : ':' ∉ s.data) :
    parse_curie s = .error (.invalidCurie ("Invalid input curie id: " ++ s)) := by
  simp [parse_curie, splitFirstColon, splitListFirst_eq_none h]

theorem parse_curie_ok_of_colon {s : String} (h : ':' ∈ s.data) :
    ∃ v, parse_curie s = .ok v := by
  obtain ⟨⟨p1, p2⟩, hp⟩ := splitListFirst_isSome h
  have hs : splitFirstColon s = some (String.mk p1, String.mk p2) := by
    simp [splitFirstColon, hp]
  cases hg : dget BIOLINK_PREFIX_to_BioThings (String.mk p1) with
  | none => exact ⟨(none, s), by simp [parse_curie, hs, hg]⟩
  | some rule =>
      exact ⟨(some rule.type, if rule.keepPrefix then s else String.mk p2),
        by simp [parse_curie, hs, hg]⟩

theorem annotate_curie_parse_error {client : Client} {s : String} {raw : Bool}
    {fields : Option String} {e : PyError} (h : parse_curie s = .error e) :
    annotate_curie client s raw fields = .error e := by
  simp [annotate_curie, h]

/-- A concrete stand-in for the external biothings client, used in closed
witnesses and counterexamples: one record per query id, echoing the id. -/
def probeClient : Client := fun _t qs _f _s =>
  qs.map (fun q => .obj [("query", .str q), ("name", .str ("N" ++ q))])

/-! ### Claim C5 -/

/-- C5: for every curie containing a colon (split into `pfx` and the local
part `rest` at the first colon), the lookup id is `rest`, unless the
prefix rule sets `keep_prefix` (then the full curie) or the prefix is not
in the namespace table (then the entity type is `none` and the full curie
is the fallback lookup id). -/
theorem C5_lookup_id (curie pfx rest : String)
    (h : splitFirstColon curie = some (pfx, rest)) :
    (∀ rule, dget BIOLINK_PREFIX_to_BioThings pfx = some rule →
      parse_curie curie = .ok (some rule.type, if rule.keepPrefix then curie else rest)) ∧
    (dget BIOLINK_PREFIX_to_BioThings pfx = none →
      parse_curie curie = .ok (none, curie)) := by
  constructor
  · intro rule hr
    simp [parse_curie, h, hr]
  · intro hr
    simp [parse_curie, h, hr]

theorem C5_witness :
    parse_curie "NCBIGene:1017" = .ok (some "gene", "1017") ∧
    parse_curie "CHEBI:15377" = .ok (some "chem", "CHEBI:15377") ∧
    parse_curie "FOO:1" = .ok (none, "FOO:1") := by
  refine ⟨?_, ?_, ?_⟩
  · have h := (C5_lookup_id "NCBIGene:1017" "NCBIGene" "1017" (by decide)).1
      ⟨"gene", some "entrezgene", false⟩ (by decide)
    simpa using h
  · have h := (C5_lookup_id "CHEBI:15377" "CHEBI" "15377" (by decide)).1
      ⟨"chem", some "chebi.id", true⟩ (by decide)
    simpa using h
  · exact (C5_lookup_id "FOO:1" "FOO" "1" (by decide)).2 (by decide)

/-! ### Claim C9 -/

/-- C9: an input without a colon makes `parse_curie` (and hence
`annotate_curie`) raise `InvalidCurieError`; an input with a colon is
split at the first colon and `parse_curie` never raises on it. -/
theorem C9_colon_contract (s : String) (client : Client) (raw : Bool)
    (fields : Option String) :
    (':' ∉ s.data →
      parse_curie s = .error (.invalidCurie ("Invalid input curie id: " ++ s)) ∧
      annotate_curie client s raw fields
        = .error (.invalidCurie ("Invalid input curie id: " ++ s))) ∧
    (':' ∈ s.data → ∃ pfx rest,
      splitFirstColon s = some (pfx, rest) ∧ ':' ∉ pfx.data ∧
      s.data = pfx.data ++ ':' :: rest.data ∧
      ∃ v, parse_curie s = .ok v) := by
  constructor
  · intro h
    have hp := parse_curie_error_of_no_colon h
    exact ⟨hp, annotate_curie_parse_error hp⟩
  · intro h
    obtain ⟨⟨p1, p2⟩, hp⟩ := splitListFirst_isSome h
    obtain ⟨hnc, heq⟩ := splitListFirst_spec hp
    refine ⟨String.mk p1, String.mk p2, ?_, hnc, heq, parse_curie_ok_of_colon h⟩
    simp [splitFirstColon, hp]

theorem C9_witness :
    (parse_curie "garbage" = .error (.invalidCurie "Invalid input curie id: garbage") ∧
     annotate_curie probeClient "garbage" false none
       = .error (.invalidCurie "Invalid input curie id: garbage")) ∧
    (∃ pfx rest, splitFirstColon "NCBIGene:1017" = some (pfx, rest) ∧ ':' ∉ pfx.data ∧
      "NCBIGene:1017".data = pfx.data ++ ':' :: rest.data ∧
      ∃ v, parse_curie "NCBIGene:1017" = .ok v) :=
  ⟨(C9_colon_contract "garbage" probeClient false none).1 (by decide),
   (C9_colon_contract "NCBIGene:1017" probeClient false none).2 (by decide)⟩

/-! ### Claim C1 -/

/-- C1 counterexample: a node id without a colon is a node whose entity
type cannot be resolved, yet it aborts the whole batch with
`InvalidCurieError`: no lookup call is issued and the remaining,
perfectly resolvable node is left unannotated. -/
theorem C1_counterexample :
    (annotate_trapi probeClient (mkTrapi
        [("garbage", .obj [("attributes", .arr [])]),
         ("NCBIGene:1017", .obj [("attributes", .arr [])])]) false false none none).err
      = some (.invalidCurie "Invalid input curie id: garbage") ∧
    (annotate_trapi probeClient (mkTrapi
        [("garbage", .obj [("attributes", .arr [])]),
         ("NCBIGene:1017", .obj [("attributes", .arr [])])]) false false none none).calls
      = [] ∧
    (annotate_trapi probeClient (mkTrapi
        [("garbage", .obj [("attributes", .arr [])]),
         ("NCBIGene:1017", .obj [("attributes", .arr [])])]) false false none none).nodes
      = [("garbage", .obj [("attributes", .arr [])]),
         ("NCBIGene:1017", .obj [("attributes", .arr [])])] :=
  ⟨rfl, rfl, rfl⟩

/-! ### Claim C2 -/

/-- C2 counterexample: with `raw=true`, `annotate_curie` does not map the
curie to its record list: the value under the curie is the grouped raw
lookup mapping (keyed by the stripped lookup id), one level deeper than
the claim states. -/
theorem C2_counterexample :
    annotate_curie probeClient "NCBIGene:1017" true none
      = .ok [("NCBIGene:1017", .obj [("1017",
          .arr [.obj [("query", .str "1017"), ("name", .str "N1017")]])])] ∧
    ∀ l : List JValue, annotate_curie probeClient "NCBIGene:1017" true none
      ≠ .ok [("NCBIGene:1017", .arr l)] := by
  refine ⟨rfl, ?_⟩
  intro l h
  have h0 : (Except.ok [("NCBIGene:1017", JValue.obj [("1017",
        JValue.arr [JValue.obj [("query", JValue.str "1017"),
          ("name", JValue.str "N1017")]])])] :
        Except PyError (List (String × JValue)))
      = Except.ok [("NCBIGene:1017", JValue.arr l)] := h
  simp at h0

/-! ### Write-log simulation: the mutated node mapping is the original one
with the logged writes replayed in order -/

/-- Replay a list of writes. -/
def applyWrites (append : Bool) (node_d : NodeDict) (ws : List (String × JValue)) :
    NodeDict :=
  ws.foldl (applyWrite append) node_d

theorem applyWrite_frame {append : Bool} {node_d : NodeDict} {w : String × JValue}
    {k : String} (h : k ≠ w.1) :
    dget (applyWrite append node_d w) k = dget node_d k := by
  unfold applyWrite
  have hne : w.1 ≠ k := fun hh => h hh.symm
  cases hd : dget node_d w.1 with
  | none => rfl
  | some v =>
      cases v with
      | obj node =>
          cases append with
          | false => simpa using dget_dset_ne node_d w.1 k _ hne
          | true =>
              cases ha : dget node "attributes" with
              | none => simp [ha]
              | some av =>
                  cases av with
                  | arr l =>
                      simp only [ha]
                      simpa using dget_dset_ne node_d w.1 k _ hne
                  | str s => simp [ha]
                  | num n => simp [ha]
                  | bool b => simp [ha]
                  | null => simp [ha]
                  | obj o => simp [ha]
      | str s => rfl
      | num n => rfl
      | bool b => rfl
      | null => rfl
      | arr l => rfl

theorem applyWrite_map_fst (append : Bool) (node_d : NodeDict) (w : String × JValue) :
    (applyWrite append node_d w).map Prod.fst = node_d.map Prod.fst := by
  unfold applyWrite
  cases hd : dget node_d w.1 with
  | none => rfl
  | some v =>
      cases v with
      | obj node =>
          have hs : (dget node_d w.1).isSome := by rw [hd]; rfl
          cases append with
          | false => simpa using map_fst_dset_of_mem node_d w.1 _ hs
          | true =>
              cases ha : dget node "attributes" with
              | none => simp [ha]
              | some av =>
                  cases av with
                  | arr l =>
                      simp only [ha]
                      simpa using map_fst_dset_of_mem node_d w.1 _ hs
                  | str s => simp [ha]
                  | num n => simp [ha]
                  | bool b => simp [ha]
                  | null => simp [ha]
                  | obj o => simp [ha]
      | str s => rfl
      | num n => rfl
      | bool b => rfl
      | null => rfl
      | arr l => rfl

theorem applyWrites_frame {append : Bool} {node_d : NodeDict}
    {ws : List (String × JValue)} {k : String} (h : k ∉ ws.map Prod.fst) :
    dget (applyWrites append node_d ws) k = dget node_d k := by
  induction ws generalizing node_d with
  | nil => rfl
  | cons w ws ih =>
      simp only [List.map_cons, List.mem_cons, not_or] at h
      rw [applyWrites, List.foldl_cons]
      exact (ih h.2).trans (applyWrite_frame h.1)

theorem applyWrites_map_fst (append : Bool) (node_d : NodeDict)
    (ws : List (String × JValue)) :
    (applyWrites append node_d ws).map Prod.fst = node_d.map Prod.fst := by
  induction ws generalizing node_d with
  | nil => rfl
  | cons w ws ih =>
      rw [applyWrites, List.foldl_cons]
      exact (ih (applyWrite append node_d w)).trans
        (applyWrite_map_fst append node_d w)

theorem applyWrites_append_eq (append : Bool) (node_d : NodeDict)
    (w1 w2 : List (String × JValue)) :
    applyWrites append node_d (w1 ++ w2)
      = applyWrites append (applyWrites append node_d w1) w2 :=
  List.foldl_append _ _ _ _

theorem attachRes_ok {append : Bool} {node_d : NodeDict} {orig : String}
    {env : JValue} {nd : NodeDict}
    (h : attachRes append node_d orig env = .ok nd) :
    nd = applyWrite append node_d (orig, env) := by
  unfold attachRes at h
  unfold applyWrite
  cases append with
  | false =>
      cases hd : dget node_d orig with
      | none => rw [hd] at h; simp at h
      | some v =>
          rw [hd] at h
          cases v with
          | obj node =>
              simp at h ⊢
              exact h.symm
          | str s => simp at h
          | num n => simp at h
          | bool b => simp at h
          | null => simp at h
          | arr l => simp at h
  | true =>
      cases hd : dget node_d orig with
      | none => rw [hd] at h; simp at h
      | some v =>
          rw [hd] at h
          cases v with
          | obj node =>
              cases ha : dget node "attributes" with
              | none => simp [ha] at h
              | some av =>
                  cases av with
                  | arr l =>
                      simp only [ha] at h ⊢
                      simp at h ⊢
                      exact h.symm
                  | str s => simp [ha] at h
                  | num n => simp [ha] at h
                  | bool b => simp [ha] at h
                  | null => simp [ha] at h
                  | obj o => simp [ha] at h
          | str s => simp at h
          | num n => simp at h
          | bool b => simp at h
          | null => simp at h
          | arr l => simp at h

theorem attachEntry_ok {append raw : Bool} {nid : List (String × String)}
    {node_d : NodeDict} {qid : String} {recs : List JValue}
    {nd : NodeDict} {w : String × JValue}
    (h : attachEntry append raw nid node_d qid recs = .ok (nd, w)) :
    dget nid qid = some w.1 ∧ nd = applyWrite append node_d w ∧
    ∃ rs, w.2 = mkEnvelope (.arr rs) ∧ (raw = true → rs = recs) := by
  obtain ⟨worig, wenv⟩ := w
  unfold attachEntry at h
  cases ho : dget nid qid with
  | none => rw [ho] at h; simp at h
  | some orig =>
      rw [ho] at h
      cases hres : (if raw then .ok recs else recs.mapM transform :
          Except PyError (List JValue)) with
      | error e => rw [hres] at h; simp at h
      | ok res =>
          rw [hres] at h
          cases hat : attachRes append node_d orig (mkEnvelope (.arr res)) with
          | error e => simp only [hat] at h; simp at h
          | ok nd2 =>
              simp only [hat] at h
              simp only [Except.ok.injEq, Prod.mk.injEq] at h
              obtain ⟨h1, h2, h3⟩ := h
              subst h1; subst h2; subst h3
              refine ⟨rfl, attachRes_ok hat, res, rfl, ?_⟩
              intro hr
              rw [hr] at hres
              simp at hres
              exact hres.symm

theorem attachLoop_sim (append raw : Bool) (nid : List (String × String))
    (entries : List (String × List JValue)) (node_d : NodeDict)
    (ws0 : List (String × JValue)) :
    ∃ ws1,
      (attachLoop append raw nid entries node_d ws0).2.1 = ws0 ++ ws1 ∧
      (attachLoop append raw nid entries node_d ws0).1 = applyWrites append node_d ws1 ∧
      ∀ w ∈ ws1, (∃ q recs, (q, recs) ∈ entries ∧ dget nid q = some w.1) ∧
        ∃ rs, w.2 = mkEnvelope (.arr rs) := by
  induction entries generalizing node_d ws0 with
  | nil =>
      exact ⟨[], by simp [attachLoop], by simp [attachLoop, applyWrites], by simp⟩
  | cons ent rest ih =>
      obtain ⟨q, recs⟩ := ent
      cases hae : attachEntry append raw nid node_d q recs with
      | error e =>
          refine ⟨[], ?_, ?_, ?_⟩ <;> simp [attachLoop, hae, applyWrites]
      | ok p =>
          obtain ⟨nd, w⟩ := p
          obtain ⟨h1, h2, rs, h3, _⟩ := attachEntry_ok hae
          obtain ⟨ws1, hw1, hw2, hw3⟩ := ih nd (ws0 ++ [w])
          refine ⟨w :: ws1, ?_, ?_, ?_⟩
          · simp only [attachLoop, hae]
            rw [hw1]
            simp
          · simp only [attachLoop, hae]
            rw [hw2, h2]
            rfl
          · intro w' hw'
            rcases List.mem_cons.mp hw' with rfl | hw'
            · exact ⟨⟨q, recs, List.mem_cons_self _ _, h1⟩, rs, h3⟩
            · obtain ⟨⟨q', recs', hq', hg⟩, hrs⟩ := hw3 w' hw'
              exact ⟨⟨q', recs', List.mem_cons_of_mem _ hq', hg⟩, hrs⟩

theorem attachLoop_complete {append raw : Bool} {nid : List (String × String)}
    {entries : List (String × List JValue)} {node_d : NodeDict}
    {ws0 : List (String × JValue)}
    (h : (attachLoop append raw nid entries node_d ws0).2.2 = none) :
    ∀ q recs, (q, recs) ∈ entries → ∃ orig env,
      dget nid q = some orig ∧
      (orig, env) ∈ (attachLoop append raw nid entries node_d ws0).2.1 := by
  induction entries generalizing node_d ws0 with
  | nil => intro q recs hq; simp at hq
  | cons ent rest ih =>
      obtain ⟨q0, recs0⟩ := ent
      intro q recs hq
      cases hae : attachEntry append raw nid node_d q0 recs0 with
      | error e => simp [attachLoop, hae] at h
      | ok p =>
          obtain ⟨nd, w⟩ := p
          obtain ⟨h1, _, _⟩ := attachEntry_ok hae
          simp only [attachLoop, hae] at h ⊢
          rcases List.mem_cons.mp hq with heq | hq'
          · obtain ⟨hqe, _⟩ := Prod.mk.injEq .. ▸ heq
            obtain ⟨ws1, hw1, _, _⟩ := attachLoop_sim append raw nid rest nd (ws0 ++ [w])
            refine ⟨w.1, w.2, by rw [← hqe] at h1; exact h1, ?_⟩
            rw [hw1]
            simp
          · exact ih h q recs hq'

theorem processType_nodes (client : Client) (append raw : Bool) (fields : Option String)
    (t : String) (ids : List String) (node_d : NodeDict) :
    (processType client append raw fields t ids node_d).1
      = applyWrites append node_d
          (processType client append raw fields t ids node_d).2.2.1 := by
  unfold processType
  cases hm : ids.mapM (fun i => (parse_curie i).map (fun p => p.2)) with
  | error e => simp [applyWrites]
  | ok ql =>
      dsimp only []
      cases hq : query_biothings client t ql fields with
      | error e => simp [applyWrites]
      | ok res =>
          dsimp only []
          obtain ⟨ws1, hw1, hw2, _⟩ := attachLoop_sim append raw (zipDict ql ids) res node_d []
          rw [hw2, hw1]
          simp

theorem processType_writes {client : Client} {append raw : Bool} {fields : Option String}
    {t : String} {ids : List String} {node_d : NodeDict} {w : String × JValue}
    (hw : w ∈ (processType client append raw fields t ids node_d).2.2.1) :
    ∃ ql res q recs,
      ids.mapM (fun i => (parse_curie i).map (fun p => p.2)) = .ok ql ∧
      query_biothings client t ql fields = .ok res ∧
      (q, recs) ∈ res ∧ dget (zipDict ql ids) q = some w.1 ∧
      ∃ rs, w.2 = mkEnvelope (.arr rs) := by
  unfold processType at hw
  cases hm : ids.mapM (fun i => (parse_curie i).map (fun p => p.2)) with
  | error e => rw [hm] at hw; simp at hw
  | ok ql =>
      rw [hm] at hw
      cases hq : query_biothings client t ql fields with
      | error e => simp only [hq] at hw; simp at hw
      | ok res =>
          simp only [hq] at hw
          obtain ⟨ws1, hw1, _, hw3⟩ := attachLoop_sim append raw (zipDict ql ids) res node_d []
          rw [hw1] at hw
          simp only [List.nil_append] at hw
          obtain ⟨⟨q, recs, hqr, hg⟩, hrs⟩ := hw3 w hw
          exact ⟨ql, res, q, recs, rfl, hq, hqr, hg, hrs⟩

theorem processType_calls_ok {client : Client} {append raw : Bool} {fields : Option String}
    {t : String} {ids : List String} {node_d : NodeDict}
    (h : (processType client append raw fields t ids node_d).2.2.2 = none) :
    ∃ ql, ids.mapM (fun i => (parse_curie i).map (fun p => p.2)) = .ok ql ∧
      (processType client append raw fields t ids node_d).2.1 = [(t, ql)] := by
  unfold processType at h ⊢
  cases hm : ids.mapM (fun i => (parse_curie i).map (fun p => p.2)) with
  | error e => rw [hm] at h; simp at h
  | ok ql =>
      rw [hm] at h
      cases hq : query_biothings client t ql fields with
      | error e => simp only [hq] at h; simp at h
      | ok res =>
          refine ⟨ql, rfl, ?_⟩
          simp [hq]

theorem processGroups_nodes (client : Client) (append raw : Bool) (fields : Option String)
    (groups : List (String × List String)) (node_d : NodeDict) :
    (processGroups client append raw fields groups node_d).1
      = applyWrites append node_d
          (processGroups client append raw fields groups node_d).2.2.1 := by
  induction groups generalizing node_d with
  | nil => rfl
  | cons g rest ih =>
      obtain ⟨t, ids⟩ := g
      by_cases hpass : (dmem annotator_clients t && !ids.isEmpty) = true
      · rcases hp : processType client append raw fields t ids node_d with ⟨nd, cs, ws, e⟩
        have hnd : nd = applyWrites append node_d ws := by
          have := processType_nodes client append raw fields t ids node_d
          rw [hp] at this
          exact this
        cases e with
        | none =>
            simp only [processGroups, hpass, if_true, hp]
            rw [ih nd, hnd, ← applyWrites_append_eq]
        | some e0 =>
            simp only [processGroups, hpass, if_true, hp]
            exact hnd
      · simp only [processGroups, if_neg hpass]
        exact ih node_d

theorem processGroups_writes {client : Client} {append raw : Bool} {fields : Option String}
    {groups : List (String × List String)} {node_d : NodeDict} {w : String × JValue}
    (hw : w ∈ (processGroups client append raw fields groups node_d).2.2.1) :
    ∃ t ids, (t, ids) ∈ groups ∧ dmem annotator_clients t = true ∧
      ∃ ql res q recs,
        ids.mapM (fun i => (parse_curie i).map (fun p => p.2)) = .ok ql ∧
        query_biothings client t ql fields = .ok res ∧
        (q, recs) ∈ res ∧ dget (zipDict ql ids) q = some w.1 ∧
        ∃ rs, w.2 = mkEnvelope (.arr rs) := by
  induction groups generalizing node_d with
  | nil => simp [processGroups] at hw
  | cons g rest ih =>
      obtain ⟨t, ids⟩ := g
      by_cases hpass : (dmem annotator_clients t && !ids.isEmpty) = true
      · rcases hp : processType client append raw fields t ids node_d with ⟨nd, cs, ws, e⟩
        have hws : ∀ w', w' ∈ ws →
            ∃ ql res q recs,
              ids.mapM (fun i => (parse_curie i).map (fun p => p.2)) = .ok ql ∧
              query_biothings client t ql fields = .ok res ∧
              (q, recs) ∈ res ∧ dget (zipDict ql ids) q = some w'.1 ∧
              ∃ rs, w'.2 = mkEnvelope (.arr rs) := by
          intro w' hw'
          have := @processType_writes client append raw fields t ids node_d w'
          rw [hp] at this
          exact this hw'
        have hcl : dmem annotator_clients t = true := (Bool.and_eq_true ..).mp hpass |>.1
        cases e with
        | none =>
            simp only [processGroups, hpass, if_true, hp] at hw
            simp only [List.mem_append] at hw
            rcases hw with hw | hw
            · exact ⟨t, ids, List.mem_cons_self _ _, hcl, hws w hw⟩
            · obtain ⟨t', ids', hmem, hrest⟩ := ih hw
              exact ⟨t', ids', List.mem_cons_of_mem _ hmem, hrest⟩
        | some e0 =>
            simp only [processGroups, hpass, if_true, hp] at hw
            exact ⟨t, ids, List.mem_cons_self _ _, hcl, hws w hw⟩
      · simp only [processGroups, if_neg hpass] at hw
        obtain ⟨t', ids', hmem, hrest⟩ := ih hw
        exact ⟨t', ids', List.mem_cons_of_mem _ hmem, hrest⟩

theorem processGroups_calls {client : Client} {append raw : Bool} {fields : Option String}
    {groups : List (String × List String)} {node_d : NodeDict}
    (h : (processGroups client append raw fields groups node_d).2.2.2 = none) :
    (processGroups client append raw fields groups node_d).2.1.map Prod.fst
      = (groups.filter (fun g => dmem annotator_clients g.1 && !g.2.isEmpty)).map
          Prod.fst := by
  induction groups generalizing node_d with
  | nil => rfl
  | cons g rest ih =>
      obtain ⟨t, ids⟩ := g
      by_cases hpass : (dmem annotator_clients t && !ids.isEmpty) = true
      · rcases hp : processType client append raw fields t ids node_d with ⟨nd, cs, ws, e⟩
        cases e with
        | none =>
            have hcs : ∃ ql0, cs = [(t, ql0)] := by
              obtain ⟨ql, _, hq2⟩ :=
                @processType_calls_ok client append raw fields t ids node_d (by rw [hp])
              rw [hp] at hq2
              exact ⟨ql, hq2⟩
            obtain ⟨ql0, hcs⟩ := hcs
            subst hcs
            simp only [processGroups, hpass, if_true, hp] at h ⊢
            simp [List.filter_cons, hpass, ih h]
        | some e0 =>
            simp only [processGroups, hpass, if_true, hp] at h
            simp at h
      · simp only [processGroups, if_neg hpass] at h ⊢
        simp [List.filter_cons, hpass, ih h]

theorem processGroups_complete {client : Client} {append raw : Bool}
    {fields : Option String} {groups : List (String × List String)} {node_d : NodeDict}
    (h : (processGroups client append raw fields groups node_d).2.2.2 = none) :
    ∀ t ids, (t, ids) ∈ groups → (dmem annotator_clients t && !ids.isEmpty) = true →
      ∀ ql res q recs orig,
        ids.mapM (fun i => (parse_curie i).map (fun p => p.2)) = .ok ql →
        query_biothings client t ql fields = .ok res →
        (q, recs) ∈ res → dget (zipDict ql ids) q = some orig →
        orig ∈ (processGroups client append raw fields groups node_d).2.2.1.map
          Prod.fst := by
  induction groups generalizing node_d with
  | nil => intro t ids hmem; simp at hmem
  | cons g rest ih =>
      obtain ⟨t0, ids0⟩ := g
      intro t ids hmem hpass2 ql res q recs orig hm hq hr hg
      by_cases hpass : (dmem annotator_clients t0 && !ids0.isEmpty) = true
      · rcases hp : processType client append raw fields t0 ids0 node_d with ⟨nd, cs, ws, e⟩
        cases e with
        | none =>
            simp only [processGroups, hpass, if_true, hp] at h ⊢
            rcases List.mem_cons.mp hmem with heq | hmem'
            · rw [Prod.mk.injEq] at heq
              obtain ⟨ht, hi⟩ := heq
              subst ht; subst hi
              have hpt : processType client append raw fields t ids node_d
                  = ((attachLoop append raw (zipDict ql ids) res node_d []).1, [(t, ql)],
                     (attachLoop append raw (zipDict ql ids) res node_d []).2.1,
                     (attachLoop append raw (zipDict ql ids) res node_d []).2.2) := by
                unfold processType
                rw [hm]
                dsimp only []
                rw [hq]
              rw [hp] at hpt
              simp only [Prod.mk.injEq] at hpt
              obtain ⟨hnd, hcs, hws, he⟩ := hpt
              have hloopnone : (attachLoop append raw (zipDict ql ids) res node_d []).2.2
                  = none := he.symm
              obtain ⟨orig', env, hg', hmemw⟩ :=
                attachLoop_complete hloopnone q recs hr
              rw [hg] at hg'
              obtain rfl : orig = orig' := by
                simpa using hg'
              rw [hws]
              simp only [List.map_append, List.mem_append]
              exact Or.inl (List.mem_map.mpr ⟨(orig, env), hmemw, rfl⟩)
            · have := ih h t ids hmem' hpass2 ql res q recs orig hm hq hr hg
              simp only [List.map_append, List.mem_append]
              exact Or.inr this
        | some e0 =>
            simp only [processGroups, hpass, if_true, hp] at h
            simp at h
      · rcases List.mem_cons.mp hmem with heq | hmem'
        · rw [Prod.mk.injEq] at heq
          obtain ⟨ht, hi⟩ := heq
          subst ht; subst hi
          exact absurd hpass2 hpass
        · simp only [processGroups, if_neg hpass] at h ⊢
          exact ih h t ids hmem' hpass2 ql res q recs orig hm hq hr hg

/-! ### Grouping lemmas -/

theorem map_fst_dset_of_none {α : Type} (d : List (String × α)) (k : String) (v : α)
    (h : dget d k = none) :
    (dset d k v).map Prod.fst = d.map Prod.fst ++ [k] := by
  induction d with
  | nil => simp [dset]
  | cons hd tl ih =>
      obtain ⟨k0, v0⟩ := hd
      by_cases h0 : k0 = k
      · simp [dget, h0] at h
      · simp [dget, h0] at h
        simp [dset, h0, ih h]

theorem resolvedType_of_parse {id : String} {t lid : String}
    (h : parse_curie id = .ok (some t, lid)) : resolvedType id = some t := by
  simp [resolvedType, h]

theorem resolvedType_of_parse_none {id : String} {lid : String}
    (h : parse_curie id = .ok (none, lid)) : resolvedType id = none := by
  simp [resolvedType, h]

theorem groupByTypeAux_mem_resolved {ids : List String}
    {acc gs : List (String × List String)}
    (h : groupByTypeAux ids acc = .ok gs)
    (hinv : ∀ t l, (t, l) ∈ acc → ∀ id ∈ l, resolvedType id = some t) :
    ∀ t l, (t, l) ∈ gs → ∀ id ∈ l, resolvedType id = some t := by
  induction ids generalizing acc with
  | nil =>
      simp only [groupByTypeAux] at h
      cases h
      exact hinv
  | cons id rest ih =>
      simp only [groupByTypeAux] at h
      cases hp : parse_curie id with
      | error e => rw [hp] at h; simp at h
      | ok v =>
          obtain ⟨t?, lid⟩ := v
          rw [hp] at h
          cases t? with
          | none => exact ih h hinv
          | some t0 =>
              refine ih h ?_
              intro t l hmem id' hid'
              unfold addToGroup at hmem
              cases hg : dget acc t0 with
              | none =>
                  rw [hg] at hmem
                  rcases mem_dset hmem with hmem' | hmem'
                  · exact hinv t l hmem' id' hid'
                  · rw [Prod.mk.injEq] at hmem'
                    obtain ⟨h1, h2⟩ := hmem'
                    subst h1; subst h2
                    simp at hid'
                    subst hid'
                    exact resolvedType_of_parse hp
              | some l0 =>
                  rw [hg] at hmem
                  rcases mem_dset hmem with hmem' | hmem'
                  · exact hinv t l hmem' id' hid'
                  · rw [Prod.mk.injEq] at hmem'
                    obtain ⟨h1, h2⟩ := hmem'
                    subst h1; subst h2
                    simp only [List.mem_append, List.mem_singleton] at hid'
                    rcases hid' with hid' | hid'
                    · exact hinv t l0 (dget_mem hg) id' hid'
                    · subst hid'
                      exact resolvedType_of_parse hp

theorem groupByTypeAux_keys_nodup {ids : List String}
    {acc gs : List (String × List String)}
    (h : groupByTypeAux ids acc = .ok gs)
    (hinv : (acc.map Prod.fst).Nodup) : (gs.map Prod.fst).Nodup := by
  induction ids generalizing acc with
  | nil =>
      simp only [groupByTypeAux] at h
      cases h
      exact hinv
  | cons id rest ih =>
      simp only [groupByTypeAux] at h
      cases hp : parse_curie id with
      | error e => rw [hp] at h; simp at h
      | ok v =>
          obtain ⟨t?, lid⟩ := v
          rw [hp] at h
          cases t? with
          | none => exact ih h hinv
          | some t0 =>
              refine ih h ?_
              unfold addToGroup
              cases hg : dget acc t0 with
              | none =>
                  rw [map_fst_dset_of_none acc t0 _ hg]
                  have ht0 : t0 ∉ acc.map Prod.fst := by
                    intro hc
                    have := dget_isSome_of_mem_fst hc
                    rw [hg] at this
                    simp at this
                  simp [List.nodup_append, hinv, ht0]
              | some l0 =>
                  rw [map_fst_dset_of_mem acc t0 _ (by rw [hg]; rfl)]
                  exact hinv

theorem groupByTypeAux_ok {ids : List String} {acc : List (String × List String)}
    (h : ∀ id ∈ ids, ∃ v, parse_curie id = .ok v) :
    ∃ gs, groupByTypeAux ids acc = .ok gs := by
  induction ids generalizing acc with
  | nil => exact ⟨acc, rfl⟩
  | cons id rest ih =>
      obtain ⟨⟨t?, lid⟩, hp⟩ := h id (List.mem_cons_self _ _)
      have hrest : ∀ id' ∈ rest, ∃ v, parse_curie id' = .ok v :=
        fun id' hid' => h id' (List.mem_cons_of_mem _ hid')
      simp only [groupByTypeAux, hp]
      cases t? with
      | none => exact ih hrest
      | some t0 => exact ih hrest

theorem groupByTypeAux_dget {ids : List String} {acc gs : List (String × List String)}
    (h : groupByTypeAux ids acc = .ok gs) (t : String) :
    dget gs t =
      match dget acc t with
      | some a => some (a ++ ids.filter (fun i => decide (resolvedType i = some t)))
      | none =>
          if (ids.filter (fun i => decide (resolvedType i = some t))).isEmpty then none
          else some (ids.filter (fun i => decide (resolvedType i = some t))) := by
  induction ids generalizing acc with
  | nil =>
      simp only [groupByTypeAux] at h
      cases h
      cases hg : dget gs t <;> simp
  | cons id rest ih =>
      simp only [groupByTypeAux] at h
      cases hp : parse_curie id with
      | error e => rw [hp] at h; simp at h
      | ok v =>
          obtain ⟨t?, lid⟩ := v
          rw [hp] at h
          cases t? with
          | none =>
              have hrt : resolvedType id = none := resolvedType_of_parse_none hp
              have hfilter : decide (resolvedType id = some t) = false := by
                simp [hrt]
              rw [ih h]
              simp only [List.filter_cons, hfilter, if_neg]
              rfl
          | some t0 =>
              have hrt : resolvedType id = some t0 := resolvedType_of_parse hp
              rw [ih h]
              by_cases ht : t0 = t
              · subst ht
                have hfilter : decide (resolvedType id = some t0) = true := by
                  simp [hrt]
                simp only [List.filter_cons, hfilter, if_true]
                unfold addToGroup
                cases hg : dget acc t0 with
                | none =>
                    rw [dget_dset_self]
                    simp
                | some l0 =>
                    rw [dget_dset_self]
                    simp
              · have hfilter : decide (resolvedType id = some t) = false := by
                  simp [hrt, ht]
                simp only [List.filter_cons, hfilter, if_neg]
                have hacc : dget (addToGroup acc t0 id) t = dget acc t := by
                  unfold addToGroup
                  cases hg : dget acc t0 with
                  | none => exact dget_dset_ne acc t0 t _ ht
                  | some l0 => exact dget_dset_ne acc t0 t _ ht
                rw [hacc]
                rfl

/-- `groupByType`: a type's group is exactly the node ids resolving to that
type, in iteration order. -/
theorem groupByType_dget {ids : List String} {gs : List (String × List String)}
    (h : groupByType ids = .ok gs) (t : String) :
    dget gs t =
      if (ids.filter (fun i => decide (resolvedType i = some t))).isEmpty then none
      else some (ids.filter (fun i => decide (resolvedType i = some t))) := by
  have := groupByTypeAux_dget h t
  simpa [dget] using this

theorem firstSeen_congr {l s1 s2 : List String} (h : ∀ x, x ∈ s1 ↔ x ∈ s2) :
    firstSeen s1 l = firstSeen s2 l := by
  induction l generalizing s1 s2 with
  | nil => rfl
  | cons a l ih =>
      by_cases ha : a ∈ s1
      · simp only [firstSeen, if_pos ha, if_pos ((h a).mp ha)]
        exact ih h
      · have ha2 : a ∉ s2 := fun hc => ha ((h a).mpr hc)
        simp only [firstSeen, if_neg ha, if_neg ha2]
        refine congrArg _ (ih ?_)
        intro x
        simp only [List.mem_cons]
        exact or_congr Iff.rfl (h x)

theorem firstSeen_nodup (l : List String) :
    ∀ seen, (firstSeen seen l).Nodup ∧ ∀ x ∈ firstSeen seen l, x ∉ seen := by
  induction l with
  | nil => intro seen; simp [firstSeen]
  | cons a l ih =>
      intro seen
      by_cases ha : a ∈ seen
      · simp only [firstSeen, if_pos ha]
        exact ih seen
      · simp only [firstSeen, if_neg ha]
        obtain ⟨hnd, hmem⟩ := ih (a :: seen)
        refine ⟨?_, ?_⟩
        · simp only [List.nodup_cons]
          exact ⟨fun hc => hmem a hc (List.mem_cons_self _ _), hnd⟩
        · intro x hx
          rcases List.mem_cons.mp hx with rfl | hx'
          · exact ha
          · exact fun hc => hmem x hx' (List.mem_cons_of_mem _ hc)

theorem mem_firstSeen {l seen : List String} {x : String}
    (h : x ∈ firstSeen seen l) : x ∈ l := by
  induction l generalizing seen with
  | nil => simp [firstSeen] at h
  | cons a l ih =>
      by_cases ha : a ∈ seen
      · simp only [firstSeen, if_pos ha] at h
        exact List.mem_cons_of_mem _ (ih h)
      · simp only [firstSeen, if_neg ha] at h
        rcases List.mem_cons.mp h with rfl | h'
        · exact List.mem_cons_self _ _
        · exact List.mem_cons_of_mem _ (ih h')

theorem groupByTypeAux_keys {ids : List String} {acc gs : List (String × List String)}
    (h : groupByTypeAux ids acc = .ok gs) :
    gs.map Prod.fst = acc.map Prod.fst
      ++ firstSeen (acc.map Prod.fst) (ids.filterMap resolvedType) := by
  induction ids generalizing acc with
  | nil =>
      simp only [groupByTypeAux] at h
      cases h
      simp [firstSeen]
  | cons id rest ih =>
      simp only [groupByTypeAux] at h
      cases hp : parse_curie id with
      | error e => rw [hp] at h; simp at h
      | ok v =>
          obtain ⟨t?, lid⟩ := v
          rw [hp] at h
          cases t? with
          | none =>
              have hrt : resolvedType id = none := resolvedType_of_parse_none hp
              rw [show List.filterMap resolvedType (id :: rest)
                  = List.filterMap resolvedType rest from by
                simp [List.filterMap_cons, hrt]]
              exact ih h
          | some t0 =>
              have hrt : resolvedType id = some t0 := resolvedType_of_parse hp
              rw [show List.filterMap resolvedType (id :: rest)
                  = t0 :: List.filterMap resolvedType rest from by
                simp [List.filterMap_cons, hrt]]
              cases hg : dget acc t0 with
              | some l0 =>
                  have ht0 : t0 ∈ acc.map Prod.fst :=
                    List.mem_map.mpr ⟨(t0, l0), dget_mem hg, rfl⟩
                  have hkeys : (addToGroup acc t0 id).map Prod.fst = acc.map Prod.fst := by
                    unfold addToGroup
                    rw [hg]
                    exact map_fst_dset_of_mem acc t0 _ (by rw [hg]; rfl)
                  rw [ih h, hkeys]
                  simp only [firstSeen, if_pos ht0]
              | none =>
                  have ht0 : t0 ∉ acc.map Prod.fst := by
                    intro hc
                    have := dget_isSome_of_mem_fst hc
                    rw [hg] at this
                    simp at this
                  have hkeys : (addToGroup acc t0 id).map Prod.fst
                      = acc.map Prod.fst ++ [t0] := by
                    unfold addToGroup
                    rw [hg]
                    exact map_fst_dset_of_none acc t0 _ hg
                  rw [ih h, hkeys]
                  simp only [firstSeen, if_neg ht0]
                  rw [List.append_assoc]
                  simp only [List.singleton_append, List.cons_append]
                  refine congrArg _ (congrArg _ (firstSeen_congr ?_))
                  intro x
                  simp [List.mem_append, List.mem_cons, or_comm]

/-- The groups' key sequence is the distinct resolved types in
first-seen order. -/
theorem groupByType_keys {ids : List String} {gs : List (String × List String)}
    (h : groupByType ids = .ok gs) :
    gs.map Prod.fst = distinctResolvedTypes ids := by
  have := groupByTypeAux_keys h
  simpa [distinctResolvedTypes] using this

theorem table_type_client {p : String} {r : PrefixRule}
    (h : dget BIOLINK_PREFIX_to_BioThings p = some r) :
    dmem annotator_clients r.type = true := by
  simp only [BIOLINK_PREFIX_to_BioThings, dget] at h
  split_ifs at h <;> simp_all <;> subst h <;> decide

theorem parse_type_client {id t lid : String}
    (h : parse_curie id = .ok (some t, lid)) :
    dmem annotator_clients t = true := by
  unfold parse_curie at h
  cases hs : splitFirstColon id with
  | none => rw [hs] at h; simp at h
  | some pr =>
      obtain ⟨p, rest⟩ := pr
      rw [hs] at h
      dsimp only [] at h
      cases hg : dget BIOLINK_PREFIX_to_BioThings p with
      | none => rw [hg] at h; simp at h
      | some rule =>
          rw [hg] at h
          simp only [Except.ok.injEq, Prod.mk.injEq, Option.some.injEq] at h
          obtain ⟨h1, _⟩ := h
          subst h1
          exact table_type_client hg

theorem resolvedType_client {id t : String} (h : resolvedType id = some t) :
    dmem annotator_clients t = true := by
  unfold resolvedType at h
  cases hp : parse_curie id with
  | error e => rw [hp] at h; simp at h
  | ok v =>
      obtain ⟨t?, lid⟩ := v
      rw [hp] at h
      cases t? with
      | none => simp at h
      | some t0 =>
          simp only [Option.some.injEq] at h
          subst h
          exact parse_type_client hp

/-! ### Whole-run lemmas -/

theorem annotate_trapi_mkTrapi (client : Client) (nd : NodeDict)
    (append raw : Bool) (fields : Option String) (limit : Option Int) :
    annotate_trapi client (mkTrapi nd) append raw fields limit
      = annotate_trapi_core client append raw fields limit nd := rfl

theorem core_nodes (client : Client) (append raw : Bool) (fields : Option String)
    (limit : Option Int) (node_d : NodeDict) :
    (annotate_trapi_core client append raw fields limit node_d).nodes
      = applyWrites append (truncateNodes limit node_d)
          (annotate_trapi_core client append raw fields limit node_d).writes := by
  unfold annotate_trapi_core
  dsimp only []
  cases hg : groupByType ((truncateNodes limit node_d).map Prod.fst) with
  | error e => simp [applyWrites]
  | ok gs =>
      dsimp only []
      exact processGroups_nodes client append raw fields gs (truncateNodes limit node_d)

theorem core_writes_src {client : Client} {append raw : Bool} {fields : Option String}
    {limit : Option Int} {node_d : NodeDict} {w : String × JValue}
    (hw : w ∈ (annotate_trapi_core client append raw fields limit node_d).writes) :
    ∃ gs, groupByType ((truncateNodes limit node_d).map Prod.fst) = .ok gs ∧
      ∃ t ids, (t, ids) ∈ gs ∧ dmem annotator_clients t = true ∧
        ∃ ql res q recs,
          ids.mapM (fun i => (parse_curie i).map (fun p => p.2)) = .ok ql ∧
          query_biothings client t ql fields = .ok res ∧
          (q, recs) ∈ res ∧ dget (zipDict ql ids) q = some w.1 ∧
          ∃ rs, w.2 = mkEnvelope (.arr rs) := by
  unfold annotate_trapi_core at hw
  dsimp only [] at hw
  cases hg : groupByType ((truncateNodes limit node_d).map Prod.fst) with
  | error e => rw [hg] at hw; simp at hw
  | ok gs =>
      rw [hg] at hw
      dsimp only [] at hw
      exact ⟨gs, rfl, processGroups_writes hw⟩

theorem core_run_ok {client : Client} {append raw : Bool} {fields : Option String}
    {limit : Option Int} {node_d : NodeDict}
    (h : (annotate_trapi_core client append raw fields limit node_d).err = none) :
    ∃ gs, groupByType ((truncateNodes limit node_d).map Prod.fst) = .ok gs ∧
      (processGroups client append raw fields gs (truncateNodes limit node_d)).2.2.2
        = none ∧
      (annotate_trapi_core client append raw fields limit node_d).calls
        = (processGroups client append raw fields gs (truncateNodes limit node_d)).2.1 ∧
      (annotate_trapi_core client append raw fields limit node_d).writes
        = (processGroups client append raw fields gs
            (truncateNodes limit node_d)).2.2.1 := by
  unfold annotate_trapi_core at h ⊢
  dsimp only [] at h ⊢
  cases hg : groupByType ((truncateNodes limit node_d).map Prod.fst) with
  | error e => rw [hg] at h; simp at h
  | ok gs =>
      rw [hg] at h
      exact ⟨gs, rfl, h, rfl, rfl⟩

/-! ### `Except` plumbing -/

theorem except_bind_error {α β : Type} (e : PyError) (f : α → Except PyError β) :
    (Except.error e >>= f) = .error e := rfl

theorem except_bind_ok {α β : Type} (a : α) (f : α → Except PyError β) :
    (Except.ok a >>= f) = f a := rfl

theorem except_pure {α : Type} (a : α) : (pure a : Except PyError α) = .ok a := rfl

theorem except_mapM_ok {α β : Type} {f : α → Except PyError β} {l : List α}
    (h : ∀ a ∈ l, ∃ b, f a = .ok b) : ∃ bs, l.mapM f = .ok bs := by
  induction l with
  | nil => exact ⟨[], rfl⟩
  | cons a l ih =>
      obtain ⟨b, hb⟩ := h a (List.mem_cons_self _ _)
      obtain ⟨bs, hbs⟩ := ih (fun a' ha' => h a' (List.mem_cons_of_mem _ ha'))
      exact ⟨b :: bs, by
        rw [List.mapM_cons, hb, except_bind_ok, hbs, except_bind_ok, except_pure]⟩

theorem except_mapM_err {α β : Type} {f : α → Except PyError β} {l : List α}
    {e : PyError} (h : l.mapM f = .error e) : ∃ a ∈ l, f a = .error e := by
  induction l with
  | nil => rw [List.mapM_nil, except_pure] at h; simp at h
  | cons a l ih =>
      rw [List.mapM_cons] at h
      cases ha : f a with
      | error e' =>
          rw [ha, except_bind_error] at h
          obtain rfl : e' = e := by injection h
          exact ⟨a, List.mem_cons_self _ _, ha⟩
      | ok b =>
          rw [ha, except_bind_ok] at h
          cases hl : l.mapM f with
          | error e' =>
              rw [hl, except_bind_error] at h
              obtain rfl : e' = e := by injection h
              obtain ⟨a', ha', hfa⟩ := ih hl
              exact ⟨a', List.mem_cons_of_mem _ ha', hfa⟩
          | ok bs => rw [hl, except_bind_ok, except_pure] at h; simp at h

/-! ### Error taxonomy: everything after grouping raises only
`KeyError` / `TypeError`, never `InvalidCurieError` -/

/-- Runtime (non-curie, non-TRAPI) errors. -/
def runtimeErr (e : PyError) : Prop :=
  (∃ m, e = .keyError m) ∨ (∃ m, e = .typeError m)

theorem meshFixDoc_err {d : JValue} {e : PyError} (h : meshFixDoc d = .error e) :
    runtimeErr e := by
  cases d with
  | obj o =>
      unfold meshFixDoc at h
      dsimp only [] at h
      cases hg : dget o "mesh_id" with
      | none => rw [hg] at h; simp at h
      | some v =>
          rw [hg] at h
          cases v <;> simp at h <;> exact Or.inr ⟨_, h.symm⟩
  | str s => simp [meshFixDoc] at h
  | num n => exact Or.inr ⟨_, by injection h with h'; rw [h']⟩
  | bool b => exact Or.inr ⟨_, by injection h with h'; rw [h']⟩
  | null => exact Or.inr ⟨_, by injection h with h'; rw [h']⟩
  | arr l => exact Or.inr ⟨_, by injection h with h'; rw [h']⟩

theorem chemblMeshAppend_err {d : JValue} {e : PyError}
    (h : chemblMeshAppend d = .error e) : runtimeErr e := by
  cases d with
  | obj o =>
      unfold chemblMeshAppend at h
      dsimp only [] at h
      cases hg : dget o "drug_indications" with
      | none => rw [hg] at h; simp at h
      | some v =>
          rw [hg] at h
          cases v with
          | arr docs =>
              dsimp only [] at h
              cases hm : docs.mapM meshFixDoc with
              | error e' =>
                  rw [hm] at h
                  simp only [Except.map] at h
                  obtain rfl : e' = e := by injection h
                  obtain ⟨d', _, hd'⟩ := except_mapM_err hm
                  exact meshFixDoc_err hd'
              | ok ds => rw [hm] at h; simp [Except.map] at h
          | str s => simp at h
          | num n => exact Or.inr ⟨_, by injection h with h'; rw [h']⟩
          | bool b => exact Or.inr ⟨_, by injection h with h'; rw [h']⟩
          | null => exact Or.inr ⟨_, by injection h with h'; rw [h']⟩
          | obj o2 => exact Or.inr ⟨_, by injection h with h'; rw [h']⟩
  | str s => exact Or.inr ⟨_, by injection h with h'; rw [h']⟩
  | num n => exact Or.inr ⟨_, by injection h with h'; rw [h']⟩
  | bool b => exact Or.inr ⟨_, by injection h with h'; rw [h']⟩
  | null => exact Or.inr ⟨_, by injection h with h'; rw [h']⟩
  | arr l => exact Or.inr ⟨_, by injection h with h'; rw [h']⟩

theorem transformChembl_err {res : List (String × JValue)} {e : PyError}
    (h : transformChemblDrugIndications res = .error e) : runtimeErr e := by
  unfold transformChemblDrugIndications at h
  cases hg : dget res "chembl" with
  | none => rw [hg] at h; simp at h
  | some chembl =>
      rw [hg] at h
      dsimp only [] at h
      by_cases ht : truthy chembl = true
      · rw [if_pos ht] at h
        cases chembl with
        | arr l =>
            dsimp only [] at h
            cases hm : l.mapM chemblMeshAppend with
            | error e' =>
                rw [hm] at h
                simp only [Except.map] at h
                obtain rfl : e' = e := by injection h
                obtain ⟨c, _, hc⟩ := except_mapM_err hm
                exact chemblMeshAppend_err hc
            | ok l' => rw [hm] at h; simp [Except.map] at h
        | obj o =>
            dsimp only [] at h
            cases hc : chemblMeshAppend (.obj o) with
            | error e' =>
                rw [hc] at h
                simp only [Except.map] at h
                obtain rfl : e' = e := by injection h
                exact chemblMeshAppend_err hc
            | ok c' => rw [hc] at h; simp [Except.map] at h
        | str s =>
            dsimp only [] at h
            cases hc : chemblMeshAppend (.str s) with
            | error e' =>
                rw [hc] at h
                simp only [Except.map] at h
                obtain rfl : e' = e := by injection h
                exact chemblMeshAppend_err hc
            | ok c' => rw [hc] at h; simp [Except.map] at h
        | num n =>
            dsimp only [] at h
            cases hc : chemblMeshAppend (.num n) with
            | error e' =>
                rw [hc] at h
                simp only [Except.map] at h
                obtain rfl : e' = e := by injection h
                exact chemblMeshAppend_err hc
            | ok c' => rw [hc] at h; simp [Except.map] at h
        | bool b =>
            dsimp only [] at h
            cases hc : chemblMeshAppend (.bool b) with
            | error e' =>
                rw [hc] at h
                simp only [Except.map] at h
                obtain rfl : e' = e := by injection h
                exact chemblMeshAppend_err hc
            | ok c' => rw [hc] at h; simp [Except.map] at h
        | null =>
            dsimp only [] at h
            cases hc : chemblMeshAppend .null with
            | error e' =>
                rw [hc] at h
                simp only [Except.map] at h
                obtain rfl : e' = e := by injection h
                exact chemblMeshAppend_err hc
            | ok c' => rw [hc] at h; simp [Except.map] at h
      · rw [if_neg ht] at h
        simp at h

theorem transform_err {r : JValue} {e : PyError} (h : transform r = .error e) :
    runtimeErr e := by
  unfold transform at h
  cases r with
  | obj o =>
      dsimp only [] at h
      cases hc : transformChemblDrugIndications (dpop (dpop o "query") "_score") with
      | error e' =>
          rw [hc] at h
          simp only [Except.map] at h
          obtain rfl : e' = e := by injection h
          exact transformChembl_err hc
      | ok o' => rw [hc] at h; simp [Except.map] at h
  | str s => exact Or.inr ⟨_, by injection h with h'; rw [h']⟩
  | num n => exact Or.inr ⟨_, by injection h with h'; rw [h']⟩
  | bool b => exact Or.inr ⟨_, by injection h with h'; rw [h']⟩
  | null => exact Or.inr ⟨_, by injection h with h'; rw [h']⟩
  | arr l => exact Or.inr ⟨_, by injection h with h'; rw [h']⟩

theorem list2dictAux_err {key : String} {li : List JValue}
    {acc : List (String × List JValue)} {e : PyError}
    (h : list2dictAux key li acc = .error e) : runtimeErr e := by
  induction li generalizing acc with
  | nil => simp [list2dictAux] at h
  | cons d rest ih =>
      unfold list2dictAux at h
      cases d with
      | obj o =>
          dsimp only [] at h
          cases hg : dget o key with
          | none =>
              rw [hg] at h
              exact Or.inl ⟨_, by injection h with h'; rw [h']⟩
          | some v =>
              rw [hg] at h
              cases v with
              | str k =>
                  dsimp only [] at h
                  cases hacc : dget acc k with
                  | none => rw [hacc] at h; exact ih h
                  | some l => rw [hacc] at h; exact ih h
              | num n => exact Or.inr ⟨_, by injection h with h'; rw [h']⟩
              | bool b => exact Or.inr ⟨_, by injection h with h'; rw [h']⟩
              | null => exact Or.inr ⟨_, by injection h with h'; rw [h']⟩
              | arr l => exact Or.inr ⟨_, by injection h with h'; rw [h']⟩
              | obj o2 => exact Or.inr ⟨_, by injection h with h'; rw [h']⟩
      | str s => exact Or.inr ⟨_, by injection h with h'; rw [h']⟩
      | num n => exact Or.inr ⟨_, by injection h with h'; rw [h']⟩
      | bool b => exact Or.inr ⟨_, by injection h with h'; rw [h']⟩
      | null => exact Or.inr ⟨_, by injection h with h'; rw [h']⟩
      | arr l => exact Or.inr ⟨_, by injection h with h'; rw [h']⟩

theorem query_biothings_err {client : Client} {t : String} {ql : List String}
    {fields : Option String} {e : PyError}
    (h : query_biothings client t ql fields = .error e) : runtimeErr e := by
  unfold query_biothings at h
  cases hg : dget annotator_clients t with
  | none =>
      rw [hg] at h
      exact Or.inl ⟨_, by injection h with h'; rw [h']⟩
  | some conf =>
      rw [hg] at h
      dsimp only [] at h
      exact list2dictAux_err h

theorem attachRes_err {append : Bool} {node_d : NodeDict} {orig : String}
    {env : JValue} {e : PyError} (h : attachRes append node_d orig env = .error e) :
    runtimeErr e := by
  unfold attachRes at h
  cases append with
  | false =>
      cases hd : dget node_d orig with
      | none =>
          rw [hd] at h
          exact Or.inl ⟨_, by injection h with h'; rw [h']⟩
      | some v =>
          rw [hd] at h
          cases v with
          | obj node => simp at h
          | str s => exact Or.inr ⟨_, by injection h with h'; rw [h']⟩
          | num n => exact Or.inr ⟨_, by injection h with h'; rw [h']⟩
          | bool b => exact Or.inr ⟨_, by injection h with h'; rw [h']⟩
          | null => exact Or.inr ⟨_, by injection h with h'; rw [h']⟩
          | arr l => exact Or.inr ⟨_, by injection h with h'; rw [h']⟩
  | true =>
      cases hd : dget node_d orig with
      | none =>
          rw [hd] at h
          exact Or.inl ⟨_, by injection h with h'; rw [h']⟩
      | some v =>
          rw [hd] at h
          cases v with
          | obj node =>
              dsimp only [] at h
              cases ha : dget node "attributes" with
              | none =>
                  rw [ha] at h
                  exact Or.inl ⟨_, by injection h with h'; rw [h']⟩
              | some av =>
                  rw [ha] at h
                  cases av with
                  | arr l => simp at h
                  | str s => exact Or.inr ⟨_, by injection h with h'; rw [h']⟩
                  | num n => exact Or.inr ⟨_, by injection h with h'; rw [h']⟩
                  | bool b => exact Or.inr ⟨_, by injection h with h'; rw [h']⟩
                  | null => exact Or.inr ⟨_, by injection h with h'; rw [h']⟩
                  | obj o2 => exact Or.inr ⟨_, by injection h with h'; rw [h']⟩
          | str s => exact Or.inr ⟨_, by injection h with h'; rw [h']⟩
          | num n => exact Or.inr ⟨_, by injection h with h'; rw [h']⟩
          | bool b => exact Or.inr ⟨_, by injection h with h'; rw [h']⟩
          | null => exact Or.inr ⟨_, by injection h with h'; rw [h']⟩
          | arr l => exact Or.inr ⟨_, by injection h with h'; rw [h']⟩

theorem attachEntry_err {append raw : Bool} {nid : List (String × String)}
    {node_d : NodeDict} {qid : String} {recs : List JValue} {e : PyError}
    (h : attachEntry append raw nid node_d qid recs = .error e) :
    runtimeErr e := by
  unfold attachEntry at h
  cases ho : dget nid qid with
  | none =>
      rw [ho] at h
      exact Or.inl ⟨_, by injection h with h'; rw [h']⟩
  | some orig =>
      rw [ho] at h
      dsimp only [] at h
      cases hres : (if raw then .ok recs else recs.mapM transform :
          Except PyError (List JValue)) with
      | error e2 =>
          rw [hres] at h
          obtain rfl : e2 = e := by injection h
          cases hraw : raw with
          | true => rw [hraw] at hres; simp at hres
          | false =>
              rw [hraw] at hres
              simp only [Bool.false_eq_true, if_false] at hres
              obtain ⟨r, _, hr⟩ := except_mapM_err hres
              exact transform_err hr
      | ok res =>
          rw [hres] at h
          dsimp only [] at h
          cases hat : attachRes append node_d orig (mkEnvelope (.arr res)) with
          | error e2 =>
              rw [hat] at h
              obtain rfl : e2 = e := by injection h
              exact attachRes_err hat
          | ok nd => rw [hat] at h; simp at h

theorem attachLoop_err {append raw : Bool} {nid : List (String × String)}
    {entries : List (String × List JValue)} {node_d : NodeDict}
    {ws : List (String × JValue)} {e : PyError}
    (h : (attachLoop append raw nid entries node_d ws).2.2 = some e) :
    runtimeErr e := by
  induction entries generalizing node_d ws with
  | nil => simp [attachLoop] at h
  | cons ent rest ih =>
      obtain ⟨q, recs⟩ := ent
      cases hae : attachEntry append raw nid node_d q recs with
      | error e2 =>
          simp only [attachLoop, hae] at h
          obtain rfl : e2 = e := by injection h
          exact attachEntry_err hae
      | ok p =>
          obtain ⟨nd, w⟩ := p
          simp only [attachLoop, hae] at h
          exact ih h

theorem resolvedType_parse_ok {id t : String} (h : resolvedType id = some t) :
    ∃ v, parse_curie id = .ok v := by
  unfold resolvedType at h
  cases hp : parse_curie id with
  | error e => rw [hp] at h; simp at h
  | ok v => exact ⟨v, rfl⟩

theorem processType_err {client : Client} {append raw : Bool} {fields : Option String}
    {t : String} {ids : List String} {node_d : NodeDict} {e : PyError}
    (hids : ∀ id ∈ ids, ∃ v, parse_curie id = .ok v)
    (h : (processType client append raw fields t ids node_d).2.2.2 = some e) :
    runtimeErr e := by
  unfold processType at h
  cases hm : ids.mapM (fun i => (parse_curie i).map (fun p => p.2)) with
  | error e2 =>
      obtain ⟨a, ha, hfa⟩ := except_mapM_err hm
      obtain ⟨v, hv⟩ := hids a ha
      rw [hv] at hfa
      simp [Except.map] at hfa
  | ok ql =>
      rw [hm] at h
      dsimp only [] at h
      cases hq : query_biothings client t ql fields with
      | error e2 =>
          rw [hq] at h
          obtain rfl : e2 = e := by injection h
          exact query_biothings_err hq
      | ok res =>
          rw [hq] at h
          dsimp only [] at h
          exact attachLoop_err h

theorem processGroups_err {client : Client} {append raw : Bool} {fields : Option String}
    {groups : List (String × List String)} {node_d : NodeDict} {e : PyError}
    (hids : ∀ t ids, (t, ids) ∈ groups → ∀ id ∈ ids, ∃ v, parse_curie id = .ok v)
    (h : (processGroups client append raw fields groups node_d).2.2.2 = some e) :
    runtimeErr e := by
  induction groups generalizing node_d with
  | nil => simp [processGroups] at h
  | cons g rest ih =>
      obtain ⟨t, ids⟩ := g
      by_cases hpass : (dmem annotator_clients t && !ids.isEmpty) = true
      · rcases hp : processType client append raw fields t ids node_d with ⟨nd, cs, ws, e?⟩
        cases e? with
        | none =>
            simp only [processGroups, hpass, if_true, hp] at h
            exact ih (fun t' ids' hm => hids t' ids' (List.mem_cons_of_mem _ hm)) h
        | some e2 =>
            simp only [processGroups, hpass, if_true, hp] at h
            have h2 : (processType client append raw fields t ids node_d).2.2.2
                = some e2 := by rw [hp]
            obtain rfl : e2 = e := by injection h
            exact processType_err (hids t ids (List.mem_cons_self _ _)) h2
      · simp only [processGroups, if_neg hpass] at h
        exact ih (fun t' ids' hm => hids t' ids' (List.mem_cons_of_mem _ hm)) h

theorem processGroups_empty {client : Client} {append raw : Bool}
    {fields : Option String} {groups : List (String × List String)} {node_d : NodeDict}
    (hclient : ∀ t ql f s, client t ql f s = [])
    (hids : ∀ t ids, (t, ids) ∈ groups → ∀ id ∈ ids, ∃ v, parse_curie id = .ok v) :
    (processGroups client append raw fields groups node_d).1 = node_d ∧
    (processGroups client append raw fields groups node_d).2.2.2 = none := by
  induction groups generalizing node_d with
  | nil => exact ⟨rfl, rfl⟩
  | cons g rest ih =>
      obtain ⟨t, ids⟩ := g
      have hrest := fun t' ids' hm => hids t' ids' (List.mem_cons_of_mem _ hm)
      by_cases hpass : (dmem annotator_clients t && !ids.isEmpty) = true
      · obtain ⟨ql, hql⟩ := except_mapM_ok
          (f := fun i => (parse_curie i).map (fun p => p.2))
          (fun id hid => by
            obtain ⟨v, hv⟩ := hids t ids (List.mem_cons_self _ _) id hid
            exact ⟨v.2, by
              show Except.map (fun p => p.2) (parse_curie id) = .ok v.2
              rw [hv]
              rfl⟩)
        have hdm : dmem annotator_clients t = true := ((Bool.and_eq_true _ _).mp hpass).1
        obtain ⟨conf, hconf⟩ : ∃ conf, dget annotator_clients t = some conf := by
          unfold dmem at hdm
          exact Option.isSome_iff_exists.mp hdm
        have hqb : query_biothings client t ql fields = .ok [] := by
          unfold query_biothings
          rw [hconf]
          dsimp only []
          rw [hclient t ql _ _]
          rfl
        have hpt : processType client append raw fields t ids node_d
            = (node_d, [(t, ql)], [], none) := by
          unfold processType
          rw [hql]
          dsimp only []
          rw [hqb]
          rfl
        simp only [processGroups, hpass, if_true, hpt]
        exact ⟨(ih hrest).1, (ih hrest).2⟩
      · simp only [processGroups, if_neg hpass]
        exact ih hrest

theorem groupByType_group_facts {ids0 : List String} {gs : List (String × List String)}
    (h : groupByType ids0 = .ok gs) :
    ∀ t l, (t, l) ∈ gs →
      l = ids0.filter (fun i => decide (resolvedType i = some t)) ∧
      l.isEmpty = false ∧ dmem annotator_clients t = true := by
  intro t l hm
  have hnodup := groupByTypeAux_keys_nodup h (by simp)
  have hdget := dget_of_mem_nodup hnodup hm
  rw [groupByType_dget h t] at hdget
  by_cases hemp : (ids0.filter (fun i => decide (resolvedType i = some t))).isEmpty
  · rw [if_pos hemp] at hdget
    simp at hdget
  · rw [if_neg hemp] at hdget
    have hfl : ids0.filter (fun i => decide (resolvedType i = some t)) = l := by
      injection hdget
    refine ⟨hfl.symm, ?_, ?_⟩
    · rw [← hfl]
      simpa using hemp
    · cases hl : l with
      | nil =>
          rw [hl] at hfl
          exact absurd (by simp [hfl]) hemp
      | cons a l' =>
          have ha : a ∈ ids0.filter (fun i => decide (resolvedType i = some t)) := by
            rw [hfl, hl]
            exact List.mem_cons_self _ _
          have := (List.mem_filter.mp ha).2
          exact resolvedType_client (of_decide_eq_true this)

/-! ### Claim C3 -/

/-- C3: whenever `annotate_trapi` completes without an exception, the
batched lookup calls are exactly one per distinct resolvable entity type
spanned by the (truncated) node ids, in first-seen order — regardless of
the number of nodes. -/
theorem C3_one_call_per_type (client : Client) (node_d : NodeDict) (append raw : Bool)
    (fields : Option String) (limit : Option Int)
    (h : (annotate_trapi client (mkTrapi node_d) append raw fields limit).err = none) :
    (annotate_trapi client (mkTrapi node_d) append raw fields limit).calls.map Prod.fst
      = distinctResolvedTypes ((truncateNodes limit node_d).map Prod.fst) ∧
    (annotate_trapi client (mkTrapi node_d) append raw fields limit).calls.length
      = (distinctResolvedTypes ((truncateNodes limit node_d).map Prod.fst)).length ∧
    (distinctResolvedTypes ((truncateNodes limit node_d).map Prod.fst)).Nodup := by
  rw [annotate_trapi_mkTrapi] at h ⊢
  obtain ⟨gs, hg, hpe, hcalls, _⟩ := core_run_ok h
  have hfacts := groupByType_group_facts hg
  have hfilter_all : gs.filter (fun g => dmem annotator_clients g.1 && !g.2.isEmpty)
      = gs := by
    apply List.filter_eq_self.mpr
    intro g hgm
    obtain ⟨t, l⟩ := g
    obtain ⟨_, hne, hcl⟩ := hfacts t l hgm
    simp [hcl, hne]
  have hmap := processGroups_calls hpe
  rw [hfilter_all] at hmap
  have hkeys := groupByType_keys hg
  have hconcl1 : (annotate_trapi_core client append raw fields limit node_d).calls.map
      Prod.fst = distinctResolvedTypes ((truncateNodes limit node_d).map Prod.fst) := by
    rw [hcalls, hmap, hkeys]
  refine ⟨hconcl1, ?_, (firstSeen_nodup _ []).1⟩
  calc (annotate_trapi_core client append raw fields limit node_d).calls.length
      = ((annotate_trapi_core client append raw fields limit node_d).calls.map
          Prod.fst).length := (List.length_map _ _).symm
    _ = (distinctResolvedTypes ((truncateNodes limit node_d).map Prod.fst)).length := by
        rw [hconcl1]

theorem C3_witness :
    (annotate_trapi probeClient (mkTrapi
        [("NCBIGene:1017", .obj []), ("ENSEMBL:42", .obj []),
         ("CHEBI:15377", .obj []), ("UNII:9100L32L2N", .obj [])])
        false true none none).err = none ∧
    (annotate_trapi probeClient (mkTrapi
        [("NCBIGene:1017", .obj []), ("ENSEMBL:42", .obj []),
         ("CHEBI:15377", .obj []), ("UNII:9100L32L2N", .obj [])])
        false true none none).calls.length = 2 := by
  refine ⟨rfl, ?_⟩
  have h := (C3_one_call_per_type probeClient
      [("NCBIGene:1017", .obj []), ("ENSEMBL:42", .obj []),
       ("CHEBI:15377", .obj []), ("UNII:9100L32L2N", .obj [])]
      false true none none rfl).2.1
  rw [h]
  rfl

/-! ### Claim C6 -/

theorem takeNodesAux_eq_take (limit : Int) (d : NodeDict) :
    ∀ i : Int, takeNodesAux limit d i = d.take (limit - i).toNat := by
  induction d with
  | nil => intro i; simp [takeNodesAux]
  | cons x xs ih =>
      intro i
      simp only [takeNodesAux]
      by_cases hgt : i + 1 > limit
      · rw [if_pos hgt]
        have h0 : (limit - i).toNat = 0 := by omega
        rw [h0]
        rfl
      · rw [if_neg hgt]
        rw [ih (i + 1)]
        have h1 : (limit - i).toNat = (limit - (i + 1)).toNat + 1 := by omega
        rw [h1]
        rfl

/-- C6 counterexample: a `limit` of `0` is falsy in Python, so the
5-claims truncation does not happen: a graph with more nodes than the
limit keeps all its nodes instead of the claimed "first 0". -/
theorem C6_counterexample :
    (annotate_trapi probeClient (mkTrapi [("NCBIGene:1017", .obj [])])
        false true none (some 0)).nodes.map Prod.fst = ["NCBIGene:1017"] ∧
    (annotate_trapi probeClient (mkTrapi [("NCBIGene:1017", .obj [])])
        false true none (some 0)).nodes.length = 1 := ⟨rfl, rfl⟩

/-- C6 amended: for a positive limit `L` and a graph with more than `L`
nodes, the returned node mapping holds exactly the first `L` nodes in
iteration order; the rest are excluded from the mapping entirely.
(`limit = 0` is falsy and disables truncation, see the counterexample;
a negative limit yields the empty mapping.) -/
theorem C6_limit_truncation (client : Client) (node_d : NodeDict) (append raw : Bool)
    (fields : Option String) (L : Int) (hL : 1 ≤ L)
    (hmore : L.toNat < node_d.length) :
    (annotate_trapi client (mkTrapi node_d) append raw fields (some L)).nodes.map
        Prod.fst = (node_d.map Prod.fst).take L.toNat ∧
    (annotate_trapi client (mkTrapi node_d) append raw fields (some L)).nodes.length
      = L.toNat := by
  have htr : truncateNodes (some L) node_d = node_d.take L.toNat := by
    show (if L = 0 then node_d else takeNodesAux L node_d 0) = node_d.take L.toNat
    rw [if_neg (by omega), takeNodesAux_eq_take]
    simp
  have hnodes := core_nodes client append raw fields (some L) node_d
  rw [annotate_trapi_mkTrapi, hnodes, htr]
  constructor
  · rw [applyWrites_map_fst, List.map_take]
  · have hm := applyWrites_map_fst append (node_d.take L.toNat)
      (annotate_trapi_core client append raw fields (some L) node_d).writes
    have hlen := congrArg List.length hm
    simp only [List.length_map] at hlen
    rw [hlen, List.length_take]
    omega

theorem C6_witness :
    (annotate_trapi probeClient (mkTrapi
        [("NCBIGene:1", .obj []), ("NCBIGene:2", .obj []), ("NCBIGene:3", .obj [])])
        false true none (some 2)).nodes.map Prod.fst
      = ["NCBIGene:1", "NCBIGene:2"] := by
  have h := (C6_limit_truncation probeClient
      [("NCBIGene:1", .obj []), ("NCBIGene:2", .obj []), ("NCBIGene:3", .obj [])]
      false true none 2 (by decide) (by decide)).1
  rw [h]
  rfl

/-! ### The reverse map `node_id_d`: lookup and last-wins -/

theorem dget_foldl_dset (ps : List (String × String)) (d : List (String × String))
    (q : String) :
    dget (ps.foldl (fun d p => dset d p.1 p.2) d) q
      = match ps.reverse.find? (fun p => p.1 == q) with
        | some p => some p.2
        | none => dget d q := by
  induction ps generalizing d with
  | nil => simp
  | cons p rest ih =>
      rw [List.foldl_cons, ih, List.reverse_cons, List.find?_append]
      cases hf : rest.reverse.find? (fun p => p.1 == q) with
      | some r => simp [Option.or]
      | none =>
          simp only [Option.or]
          rw [List.find?_cons]
          cases hpq : (p.1 == q) with
          | true =>
              dsimp only []
              have : p.1 = q := by simpa using hpq
              rw [← this, dget_dset_self]
          | false =>
              dsimp only []
              have : p.1 ≠ q := by simpa using hpq
              rw [List.find?_nil, dget_dset_ne d p.1 q _ this]

theorem zipDict_mem {qs os : List String} {q x : String}
    (h : dget (zipDict qs os) q = some x) : (q, x) ∈ qs.zip os := by
  unfold zipDict at h
  rw [dget_foldl_dset] at h
  cases hf : (qs.zip os).reverse.find? (fun p => p.1 == q) with
  | none => rw [hf] at h; simp [dget] at h
  | some p =>
      rw [hf] at h
      obtain ⟨p1, p2⟩ := p
      have hq : p1 = q := by simpa using List.find?_some hf
      have hx : p2 = x := by simpa using h
      have hm := List.mem_of_find?_eq_some hf
      rw [List.mem_reverse] at hm
      rw [← hq, ← hx]
      exact hm

/-- Last write wins in `dict(zip(query_list, node_list))`: when the pair
`(q, y)` is the last zip entry whose key is `q`, the reverse map sends `q`
to `y`. -/
theorem zipDict_last {qs os : List String} {q y : String}
    {P1 P2 : List (String × String)}
    (hzip : qs.zip os = P1 ++ (q, y) :: P2) (h2 : ∀ p ∈ P2, ¬ p.1 = q) :
    dget (zipDict qs os) q = some y := by
  unfold zipDict
  rw [dget_foldl_dset, hzip, List.reverse_append, List.reverse_cons, List.find?_append]
  have hP2 : P2.reverse.find? (fun p => p.1 == q) = none := by
    rw [List.find?_eq_none]
    intro p hp
    simp only [beq_iff_eq]
    exact h2 p (List.mem_reverse.mp hp)
  rw [List.find?_append, hP2]
  simp [Option.or, List.find?_cons]

theorem mapM_strip_zip {ids ql : List String}
    (h : ids.mapM (fun i => (parse_curie i).map (fun p => p.2)) = .ok ql) :
    ∀ q i, (q, i) ∈ ql.zip ids → (parse_curie i).map (fun p => p.2) = .ok q := by
  induction ids generalizing ql with
  | nil =>
      have : ql = [] := by
        have h' : (pure [] : Except PyError (List String)) = .ok ql := h
        rw [except_pure] at h'
        injection h' with h''
        exact h''.symm
      subst this
      intro q i hqi
      simp at hqi
  | cons a rest ih =>
      rw [List.mapM_cons] at h
      cases ha : (parse_curie a).map (fun p => p.2) with
      | error e => rw [ha, except_bind_error] at h; simp at h
      | ok b =>
          rw [ha, except_bind_ok] at h
          cases hr : rest.mapM (fun i => (parse_curie i).map (fun p => p.2)) with
          | error e => rw [hr, except_bind_error] at h; simp at h
          | ok bs =>
              rw [hr, except_bind_ok, except_pure] at h
              have hql : b :: bs = ql := by injection h
              subst hql
              intro q i hqi
              rcases List.mem_cons.mp hqi with heq | hqi'
              · rw [Prod.mk.injEq] at heq
                obtain ⟨h1, h2⟩ := heq
                subst h1; subst h2
                exact ha
              · exact ih hr q i hqi'

theorem except_mapM_append {α β : Type} {f : α → Except PyError β}
    {l1 l2 : List α} {bs : List β} (h : (l1 ++ l2).mapM f = .ok bs) :
    ∃ b1 b2, l1.mapM f = .ok b1 ∧ l2.mapM f = .ok b2 ∧ bs = b1 ++ b2 ∧
      b1.length = l1.length := by
  induction l1 generalizing bs with
  | nil => exact ⟨[], bs, rfl, h, rfl, rfl⟩
  | cons a l1' ih =>
      rw [List.cons_append, List.mapM_cons] at h
      cases ha : f a with
      | error e => rw [ha, except_bind_error] at h; simp at h
      | ok b =>
          rw [ha, except_bind_ok] at h
          cases hr : (l1' ++ l2).mapM f with
          | error e => rw [hr, except_bind_error] at h; simp at h
          | ok bs' =>
              rw [hr, except_bind_ok, except_pure] at h
              have hbs : b :: bs' = bs := by injection h
              subst hbs
              obtain ⟨b1, b2, h1, h2, h3, h4⟩ := ih hr
              refine ⟨b :: b1, b2, ?_, h2, by rw [h3]; rfl, by simp [h4]⟩
              rw [List.mapM_cons, ha, except_bind_ok, h1, except_bind_ok, except_pure]

theorem except_mapM_length {α β : Type} {f : α → Except PyError β}
    {l : List α} {bs : List β} (h : l.mapM f = .ok bs) : bs.length = l.length := by
  induction l generalizing bs with
  | nil =>
      have h' : (pure [] : Except PyError (List β)) = .ok bs := h
      rw [except_pure] at h'
      have : [] = bs := by injection h'
      rw [← this]
      rfl
  | cons a rest ih =>
      rw [List.mapM_cons] at h
      cases ha : f a with
      | error e => rw [ha, except_bind_error] at h; simp at h
      | ok b =>
          rw [ha, except_bind_ok] at h
          cases hr : rest.mapM f with
          | error e => rw [hr, except_bind_error] at h; simp at h
          | ok bs' =>
              rw [hr, except_bind_ok, except_pure] at h
              have hbs : b :: bs' = bs := by injection h
              rw [← hbs]
              simp [ih hr]

/-! ### Claim C1 (amended) and Claim C4 -/

/-- C1 amended: node ids with a colon whose prefix is unknown (so their
entity type cannot be resolved) are skipped with a logged warning and by
themselves never abort the batch: as long as every node id contains a
colon, grouping succeeds, the whole call never raises
`InvalidCurieError`, and each unresolved-type node is left untouched
while annotation proceeds for the rest.  (A node id without a colon does
abort the whole call — see the counterexample.) -/
theorem C1_unknown_prefix_skipped (client : Client) (node_d : NodeDict)
    (append raw : Bool) (fields : Option String) (limit : Option Int)
    (hcolon : ∀ id ∈ (truncateNodes limit node_d).map Prod.fst, ':' ∈ id.data) :
    (∃ gs, groupByType ((truncateNodes limit node_d).map Prod.fst) = .ok gs) ∧
    (∀ m, (annotate_trapi client (mkTrapi node_d) append raw fields limit).err
        ≠ some (.invalidCurie m)) ∧
    (∀ x lid, parse_curie x = .ok (none, lid) →
      dget (annotate_trapi client (mkTrapi node_d) append raw fields limit).nodes x
        = dget (truncateNodes limit node_d) x) := by
  rw [annotate_trapi_mkTrapi]
  have hparse : ∀ id ∈ (truncateNodes limit node_d).map Prod.fst,
      ∃ v, parse_curie id = .ok v :=
    fun id hid => parse_curie_ok_of_colon (hcolon id hid)
  obtain ⟨gs, hgs⟩ := @groupByTypeAux_ok _ [] hparse
  have hgs2 : groupByType ((truncateNodes limit node_d).map Prod.fst) = .ok gs := hgs
  refine ⟨⟨gs, hgs2⟩, ?_, ?_⟩
  · intro m hc
    have hids : ∀ t ids, (t, ids) ∈ gs → ∀ id ∈ ids, ∃ v, parse_curie id = .ok v := by
      intro t ids hm id hid
      exact resolvedType_parse_ok
        (groupByTypeAux_mem_resolved hgs (by simp) t ids hm id hid)
    have herr : (annotate_trapi_core client append raw fields limit node_d).err
        = (processGroups client append raw fields gs
            (truncateNodes limit node_d)).2.2.2 := by
      unfold annotate_trapi_core
      dsimp only []
      rw [hgs2]
    rw [herr] at hc
    rcases processGroups_err hids hc with ⟨m', hm'⟩ | ⟨m', hm'⟩ <;> simp at hm'
  · intro x lid hx
    rw [core_nodes]
    apply applyWrites_frame
    intro hmem
    obtain ⟨w, hwmem, hw1⟩ := List.mem_map.mp hmem
    obtain ⟨gs2, hg2, t, ids, hmemg, _, ql, res, q, recs, hmq, _, _, hzip, _⟩ :=
      core_writes_src hwmem
    rw [hw1] at hzip
    have hzx : (q, x) ∈ ql.zip ids := zipDict_mem hzip
    have hxids : x ∈ ids := (List.of_mem_zip hzx).2
    have hres := groupByTypeAux_mem_resolved hg2 (by simp) t ids hmemg x hxids
    rw [resolvedType_of_parse_none hx] at hres
    exact Option.noConfusion hres

theorem C1_witness :
    (∀ id ∈ (truncateNodes none
        [("FOO:1", .obj []), ("NCBIGene:1017", .obj [])]).map Prod.fst, ':' ∈ id.data) ∧
    (∀ m, (annotate_trapi probeClient (mkTrapi
        [("FOO:1", .obj []), ("NCBIGene:1017", .obj [])]) false true none none).err
        ≠ some (.invalidCurie m)) ∧
    dget (annotate_trapi probeClient (mkTrapi
        [("FOO:1", .obj []), ("NCBIGene:1017", .obj [])]) false true none none).nodes
      "FOO:1" = dget (truncateNodes none
        [("FOO:1", .obj []), ("NCBIGene:1017", .obj [])]) "FOO:1" := by
  have hcolon : ∀ id ∈ (truncateNodes none
      [("FOO:1", .obj []), ("NCBIGene:1017", .obj [])]).map Prod.fst,
      ':' ∈ id.data := by decide
  have h := C1_unknown_prefix_skipped probeClient
    [("FOO:1", .obj []), ("NCBIGene:1017", .obj [])] false true none none hcolon
  exact ⟨hcolon, h.2.1, h.2.2 "FOO:1" "FOO:1" (by decide)⟩

theorem applyWrite_hit {append : Bool} {st : NodeDict} {x : String} {env : JValue}
    {nodeObj : List (String × JValue)} {A : List JValue}
    (h : dget st x = some (.obj nodeObj))
    (ha : append = true → dget nodeObj "attributes" = some (.arr A)) :
    dget (applyWrite append st (x, env)) x
      = some (.obj (dset nodeObj "attributes"
          (.arr (if append then A ++ [env] else [env])))) := by
  unfold applyWrite
  dsimp only []
  rw [h]
  dsimp only []
  cases append with
  | false =>
      simp only [Bool.false_eq_true, if_false]
      rw [dget_dset_self]
  | true =>
      simp only [if_true]
      rw [ha rfl]
      rw [dget_dset_self]

/-- C4: a node that receives exactly one annotation write gets, with
`append=true`, the new envelope appended after its existing `attributes`
sequence (`[A]` becomes `[A, env]` — here stated for any prior list `A`),
and with `append=false` its `attributes` replaced wholesale by the
one-element list `[env]`; every logged envelope has the
`(attribute_type_id = "biothings_annotations", value = <records>)` shape. -/
theorem C4_attach_envelope (client : Client) (node_d : NodeDict) (raw append : Bool)
    (fields : Option String) (limit : Option Int) (x : String)
    (nodeObj : List (String × JValue)) (A : List JValue) (env : JValue)
    (w1 w2 : List (String × JValue))
    (hw : (annotate_trapi client (mkTrapi node_d) append raw fields limit).writes
        = w1 ++ (x, env) :: w2)
    (hx1 : x ∉ w1.map Prod.fst) (hx2 : x ∉ w2.map Prod.fst)
    (hnode : dget (truncateNodes limit node_d) x = some (.obj nodeObj))
    (hattr : append = true → dget nodeObj "attributes" = some (.arr A)) :
    dget (annotate_trapi client (mkTrapi node_d) append raw fields limit).nodes x
      = some (.obj (dset nodeObj "attributes"
          (.arr (if append then A ++ [env] else [env])))) ∧
    ∃ rs, env = mkEnvelope (.arr rs) := by
  rw [annotate_trapi_mkTrapi] at hw ⊢
  constructor
  · have hst1 : dget (applyWrites append (truncateNodes limit node_d) w1) x
        = some (.obj nodeObj) := by
      rw [applyWrites_frame hx1]
      exact hnode
    rw [core_nodes, hw, applyWrites_append_eq]
    have hstep : applyWrites append
        (applyWrites append (truncateNodes limit node_d) w1) ((x, env) :: w2)
        = applyWrites append (applyWrite append
            (applyWrites append (truncateNodes limit node_d) w1) (x, env)) w2 := rfl
    rw [hstep, applyWrites_frame hx2, applyWrite_hit hst1 hattr]
  · have hmem : (x, env)
        ∈ (annotate_trapi_core client append raw fields limit node_d).writes := by
      rw [hw]
      simp
    obtain ⟨gs, _, t, ids, _, _, ql, res, q, recs, _, _, _, _, rs, hrs⟩ :=
      core_writes_src hmem
    exact ⟨rs, hrs⟩

theorem C4_witness :
    dget (annotate_trapi probeClient (mkTrapi
        [("NCBIGene:1017", .obj [("attributes", .arr [.str "A0"])])])
        true true none none).nodes "NCBIGene:1017"
      = some (.obj [("attributes", .arr [.str "A0",
          mkEnvelope (.arr [.obj [("query", .str "1017"),
            ("name", .str "N1017")]])])]) ∧
    dget (annotate_trapi probeClient (mkTrapi
        [("NCBIGene:1017", .obj [("attributes", .arr [.str "A0"])])])
        false true none none).nodes "NCBIGene:1017"
      = some (.obj [("attributes", .arr [mkEnvelope (.arr [.obj [("query", .str "1017"),
          ("name", .str "N1017")]])])]) := by
  constructor
  · exact (C4_attach_envelope probeClient
      [("NCBIGene:1017", .obj [("attributes", .arr [.str "A0"])])] true true none none
      "NCBIGene:1017" [("attributes", .arr [.str "A0"])] [.str "A0"]
      (mkEnvelope (.arr [.obj [("query", .str "1017"), ("name", .str "N1017")]]))
      [] [] rfl (by simp) (by simp) rfl (fun _ => rfl)).1
  · exact (C4_attach_envelope probeClient
      [("NCBIGene:1017", .obj [("attributes", .arr [.str "A0"])])] true false none none
      "NCBIGene:1017" [("attributes", .arr [.str "A0"])] [.str "A0"]
      (mkEnvelope (.arr [.obj [("query", .str "1017"), ("name", .str "N1017")]]))
      [] [] rfl (by simp) (by simp) rfl (by intro hc; exact absurd hc (by simp))).1

/-! ### Claim C7 -/

/-- A client that returns no records at all: every query id is then
missing from every lookup result mapping. -/
def emptyClient : Client := fun _t _qs _f _s => []

/-- C7: a node whose entity type was never queried (type unresolved, or
type with no client configuration) or whose stripped id is missing from
its type's lookup result mapping keeps exactly its original entry — no
attributes added, removed or changed; and a client with missing entries
for every query (no records) never crashes the batch: the call succeeds
with every node untouched. -/
theorem C7_untouched_or_tolerant (client : Client) (node_d : NodeDict)
    (append raw : Bool) (fields : Option String) (limit : Option Int) (x : String) :
    ((resolvedType x = none
        ∨ (∃ t, resolvedType x = some t ∧ dmem annotator_clients t = false)
        ∨ (∃ t qx, parse_curie x = .ok (some t, qx) ∧
            ∀ ql res,
              (((truncateNodes limit node_d).map Prod.fst).filter
                  (fun i => decide (resolvedType i = some t))).mapM
                  (fun i => (parse_curie i).map (fun p => p.2)) = .ok ql →
              query_biothings client t ql fields = .ok res →
              dget res qx = none)) →
      dget (annotate_trapi client (mkTrapi node_d) append raw fields limit).nodes x
        = dget (truncateNodes limit node_d) x) ∧
    ((∀ id ∈ (truncateNodes limit node_d).map Prod.fst, ∃ v, parse_curie id = .ok v) →
      (∀ t ql f s, client t ql f s = ([] : List JValue)) →
      (annotate_trapi client (mkTrapi node_d) append raw fields limit).err = none ∧
      (annotate_trapi client (mkTrapi node_d) append raw fields limit).nodes
        = truncateNodes limit node_d) := by
  rw [annotate_trapi_mkTrapi]
  constructor
  · intro hx
    rw [core_nodes]
    apply applyWrites_frame
    intro hmem
    obtain ⟨w, hwmem, hw1⟩ := List.mem_map.mp hmem
    obtain ⟨gs, hg, t', ids', hmemg, hdm, ql', res', q', recs', hmq', hqr', hrmem', hzip', _⟩ :=
      core_writes_src hwmem
    rw [hw1] at hzip'
    have hzx : (q', x) ∈ ql'.zip ids' := zipDict_mem hzip'
    have hxids : x ∈ ids' := (List.of_mem_zip hzx).2
    have ht' : resolvedType x = some t' :=
      groupByTypeAux_mem_resolved hg (by simp) t' ids' hmemg x hxids
    rcases hx with hx | ⟨t, hxt, hcl⟩ | ⟨t, qx, hpx, hmiss⟩
    · rw [hx] at ht'
      exact Option.noConfusion ht'
    · have : t = t' := by
        have := hxt.symm.trans ht'
        injection this
      subst this
      rw [hdm] at hcl
      exact Bool.noConfusion hcl
    · have hteq : t = t' := by
        have := (resolvedType_of_parse hpx).symm.trans ht'
        injection this
      subst hteq
      have hfact := groupByType_group_facts hg t ids' hmemg
      have hq' : q' = qx := by
        have hms := mapM_strip_zip hmq' q' x hzx
        rw [hpx] at hms
        simp only [Except.map] at hms
        injection hms with h2
        exact h2.symm
      have hmq2 : (((truncateNodes limit node_d).map Prod.fst).filter
          (fun i => decide (resolvedType i = some t))).mapM
          (fun i => (parse_curie i).map (fun p => p.2)) = .ok ql' := by
        rw [← hfact.1]
        exact hmq'
      have hnone := hmiss ql' res' hmq2 hqr'
      have hsome : (dget res' qx).isSome := by
        apply dget_isSome_of_mem_fst
        rw [← hq']
        exact List.mem_map.mpr ⟨(q', recs'), hrmem', rfl⟩
      rw [hnone] at hsome
      exact Bool.noConfusion hsome
  · intro hparse hclient
    obtain ⟨gs, hgs⟩ := @groupByTypeAux_ok _ [] hparse
    have hgs2 : groupByType ((truncateNodes limit node_d).map Prod.fst) = .ok gs := hgs
    have hids : ∀ t ids, (t, ids) ∈ gs → ∀ id ∈ ids, ∃ v, parse_curie id = .ok v := by
      intro t ids hm id hid
      exact resolvedType_parse_ok
        (groupByTypeAux_mem_resolved hgs (by simp) t ids hm id hid)
    obtain ⟨hn, he⟩ := @processGroups_empty client append raw fields gs
      (truncateNodes limit node_d) hclient hids
    have hcoreE : (annotate_trapi_core client append raw fields limit node_d).err
        = (processGroups client append raw fields gs
            (truncateNodes limit node_d)).2.2.2 := by
      unfold annotate_trapi_core
      dsimp only []
      rw [hgs2]
    have hcoreN : (annotate_trapi_core client append raw fields limit node_d).nodes
        = (processGroups client append raw fields gs (truncateNodes limit node_d)).1 := by
      unfold annotate_trapi_core
      dsimp only []
      rw [hgs2]
    exact ⟨by rw [hcoreE, he], by rw [hcoreN, hn]⟩

theorem C7_witness :
    dget (annotate_trapi emptyClient (mkTrapi
        [("NCBIGene:1017", .obj [("k", .str "v")])]) false false none none).nodes
      "NCBIGene:1017" = some (.obj [("k", .str "v")]) ∧
    (annotate_trapi emptyClient (mkTrapi
        [("NCBIGene:1017", .obj [("k", .str "v")])]) false false none none).err
      = none := by
  have h := C7_untouched_or_tolerant emptyClient
    [("NCBIGene:1017", .obj [("k", .str "v")])] false false none none "NCBIGene:1017"
  constructor
  · have h1 := h.1 (Or.inr (Or.inr ⟨"gene", "1017", by decide, by
      intro ql res _ h2
      have h2' : (Except.ok [] : Except PyError (List (String × List JValue)))
          = .ok res := h2
      have : ([] : List (String × List JValue)) = res := by injection h2'
      rw [← this]
      rfl⟩))
    exact h1.trans rfl
  · exact (h.2 (by
      intro id hid
      have hid2 : id ∈ ["NCBIGene:1017"] := hid
      rw [List.mem_singleton] at hid2
      subst hid2
      exact ⟨(some "gene", "1017"), rfl⟩) (fun _ _ _ _ => rfl)).1

/-! ### Claim C10 -/

/-- C10: with `append=true`, a node that receives an annotation but has no
`attributes` key makes the whole call abort with an uncaught `KeyError`
(not a `TRAPIInputError` and not an `InvalidCurieError`), after the nodes
processed before it have already been mutated. -/
theorem C10_keyerror_on_missing_attributes (A : List JValue)
    (objB : List (String × JValue)) (hB : dget objB "attributes" = none) :
    (annotate_trapi probeClient (mkTrapi
        [("NCBIGene:1", .obj [("attributes", .arr A)]), ("NCBIGene:2", .obj objB)])
        true true none none).err = some (.keyError "attributes") ∧
    (∀ m, (annotate_trapi probeClient (mkTrapi
        [("NCBIGene:1", .obj [("attributes", .arr A)]), ("NCBIGene:2", .obj objB)])
        true true none none).err ≠ some (.trapiInput m)) ∧
    (∀ m, (annotate_trapi probeClient (mkTrapi
        [("NCBIGene:1", .obj [("attributes", .arr A)]), ("NCBIGene:2", .obj objB)])
        true true none none).err ≠ some (.invalidCurie m)) ∧
    dget (annotate_trapi probeClient (mkTrapi
        [("NCBIGene:1", .obj [("attributes", .arr A)]), ("NCBIGene:2", .obj objB)])
        true true none none).nodes "NCBIGene:1"
      = some (.obj [("attributes", .arr (A ++ [mkEnvelope
          (.arr [.obj [("query", .str "1"), ("name", .str "N1")]])]))]) := by
  have har2 : attachRes true
      [("NCBIGene:1", JValue.obj [("attributes",
          JValue.arr (A ++ [mkEnvelope
            (.arr [.obj [("query", .str "1"), ("name", .str "N1")]])]))]),
       ("NCBIGene:2", JValue.obj objB)]
      "NCBIGene:2" (mkEnvelope (.arr [.obj [("query", .str "2"), ("name", .str "N2")]]))
      = .error (.keyError "attributes") := by
    unfold attachRes
    simp only [eq_self_iff_true, if_true]
    rw [show dget
        [("NCBIGene:1", JValue.obj [("attributes",
            JValue.arr (A ++ [mkEnvelope
              (.arr [.obj [("query", .str "1"), ("name", .str "N1")]])]))]),
         ("NCBIGene:2", JValue.obj objB)] "NCBIGene:2"
        = some (JValue.obj objB) from rfl]
    dsimp only []
    rw [hB]
  have hae2 : attachEntry true true [("1", "NCBIGene:1"), ("2", "NCBIGene:2")]
      [("NCBIGene:1", JValue.obj [("attributes",
          JValue.arr (A ++ [mkEnvelope
            (.arr [.obj [("query", .str "1"), ("name", .str "N1")]])]))]),
       ("NCBIGene:2", JValue.obj objB)]
      "2" [.obj [("query", .str "2"), ("name", .str "N2")]]
      = .error (.keyError "attributes") := by
    unfold attachEntry
    rw [show dget [("1", "NCBIGene:1"), ("2", "NCBIGene:2")] "2"
        = some "NCBIGene:2" from rfl]
    dsimp only []
    rw [show (if true = true
        then Except.ok [JValue.obj [("query", JValue.str "2"), ("name", JValue.str "N2")]]
        else ([JValue.obj [("query", JValue.str "2"),
          ("name", JValue.str "N2")]]).mapM transform)
        = Except.ok [JValue.obj [("query", JValue.str "2"), ("name", JValue.str "N2")]]
        from rfl]
    dsimp only []
    rw [har2]
  have hae1 : attachEntry true true [("1", "NCBIGene:1"), ("2", "NCBIGene:2")]
      [("NCBIGene:1", JValue.obj [("attributes", JValue.arr A)]),
       ("NCBIGene:2", JValue.obj objB)]
      "1" [.obj [("query", .str "1"), ("name", .str "N1")]]
      = .ok ([("NCBIGene:1", JValue.obj [("attributes",
          JValue.arr (A ++ [mkEnvelope
            (.arr [.obj [("query", .str "1"), ("name", .str "N1")]])]))]),
         ("NCBIGene:2", JValue.obj objB)],
        ("NCBIGene:1", mkEnvelope
          (.arr [.obj [("query", .str "1"), ("name", .str "N1")]]))) := rfl
  have hloop : attachLoop true true [("1", "NCBIGene:1"), ("2", "NCBIGene:2")]
      [("1", [.obj [("query", .str "1"), ("name", .str "N1")]]),
       ("2", [.obj [("query", .str "2"), ("name", .str "N2")]])]
      [("NCBIGene:1", JValue.obj [("attributes", JValue.arr A)]),
       ("NCBIGene:2", JValue.obj objB)] []
      = ([("NCBIGene:1", JValue.obj [("attributes",
            JValue.arr (A ++ [mkEnvelope
              (.arr [.obj [("query", .str "1"), ("name", .str "N1")]])]))]),
          ("NCBIGene:2", JValue.obj objB)],
         [("NCBIGene:1", mkEnvelope
            (.arr [.obj [("query", .str "1"), ("name", .str "N1")]]))],
         some (.keyError "attributes")) := by
    simp only [attachLoop, hae1, hae2, List.nil_append]
  have hpt : processType probeClient true true none "gene"
      ["NCBIGene:1", "NCBIGene:2"]
      [("NCBIGene:1", JValue.obj [("attributes", JValue.arr A)]),
       ("NCBIGene:2", JValue.obj objB)]
      = ([("NCBIGene:1", JValue.obj [("attributes",
            JValue.arr (A ++ [mkEnvelope
              (.arr [.obj [("query", .str "1"), ("name", .str "N1")]])]))]),
          ("NCBIGene:2", JValue.obj objB)],
         [("gene", ["1", "2"])],
         [("NCBIGene:1", mkEnvelope
            (.arr [.obj [("query", .str "1"), ("name", .str "N1")]]))],
         some (.keyError "attributes")) := by
    unfold processType
    rw [show (["NCBIGene:1", "NCBIGene:2"].mapM
        (fun i => (parse_curie i).map (fun p => p.2))) = .ok ["1", "2"] from rfl]
    dsimp only []
    rw [show query_biothings probeClient "gene" ["1", "2"] none
        = .ok [("1", [.obj [("query", .str "1"), ("name", .str "N1")]]),
               ("2", [.obj [("query", .str "2"), ("name", .str "N2")]])] from rfl]
    dsimp only []
    rw [show zipDict ["1", "2"] ["NCBIGene:1", "NCBIGene:2"]
        = [("1", "NCBIGene:1"), ("2", "NCBIGene:2")] from rfl]
    rw [hloop]
  have hpg : processGroups probeClient true true none
      [("gene", ["NCBIGene:1", "NCBIGene:2"])]
      [("NCBIGene:1", JValue.obj [("attributes", JValue.arr A)]),
       ("NCBIGene:2", JValue.obj objB)]
      = ([("NCBIGene:1", JValue.obj [("attributes",
            JValue.arr (A ++ [mkEnvelope
              (.arr [.obj [("query", .str "1"), ("name", .str "N1")]])]))]),
          ("NCBIGene:2", JValue.obj objB)],
         [("gene", ["1", "2"])],
         [("NCBIGene:1", mkEnvelope
            (.arr [.obj [("query", .str "1"), ("name", .str "N1")]]))],
         some (.keyError "attributes")) := by
    simp only [processGroups]
    rw [if_pos (show (dmem annotator_clients "gene"
        && !(["NCBIGene:1", "NCBIGene:2"] : List String).isEmpty) = true from rfl)]
    rw [hpt]
  have hrun : annotate_trapi probeClient (mkTrapi
      [("NCBIGene:1", .obj [("attributes", .arr A)]), ("NCBIGene:2", .obj objB)])
      true true none none
      = ⟨[("NCBIGene:1", JValue.obj [("attributes",
            JValue.arr (A ++ [mkEnvelope
              (.arr [.obj [("query", .str "1"), ("name", .str "N1")]])]))]),
          ("NCBIGene:2", JValue.obj objB)],
         [("gene", ["1", "2"])],
         [("NCBIGene:1", mkEnvelope
            (.arr [.obj [("query", .str "1"), ("name", .str "N1")]]))],
         some (.keyError "attributes")⟩ := by
    rw [annotate_trapi_mkTrapi]
    unfold annotate_trapi_core
    dsimp only []
    rw [show truncateNodes none
        [("NCBIGene:1", JValue.obj [("attributes", JValue.arr A)]),
         ("NCBIGene:2", JValue.obj objB)]
        = [("NCBIGene:1", JValue.obj [("attributes", JValue.arr A)]),
           ("NCBIGene:2", JValue.obj objB)] from rfl]
    rw [show groupByType
        (([("NCBIGene:1", JValue.obj [("attributes", JValue.arr A)]),
           ("NCBIGene:2", JValue.obj objB)]).map Prod.fst)
        = .ok [("gene", ["NCBIGene:1", "NCBIGene:2"])] from rfl]
    dsimp only []
    rw [hpg]
  refine ⟨by rw [hrun], ?_, ?_, by rw [hrun]; rfl⟩
  · intro m hc
    rw [hrun] at hc
    simp at hc
  · intro m hc
    rw [hrun] at hc
    simp at hc

theorem C10_witness :
    (annotate_trapi probeClient (mkTrapi
        [("NCBIGene:1", .obj [("attributes", .arr [])]), ("NCBIGene:2", .obj [])])
        true true none none).err = some (.keyError "attributes") :=
  (C10_keyerror_on_missing_attributes [] [] rfl).1

/-! ### Claim C8 -/

theorem zipDict_strip_last {L1 F3 : List String} {y q : String} {ql : List String}
    (hy : (parse_curie y).map (fun p => p.2) = .ok q)
    (hF3 : ∀ z ∈ F3, ∀ qz, (parse_curie z).map (fun p => p.2) = .ok qz → ¬ qz = q)
    (hmm : (L1 ++ y :: F3).mapM (fun i => (parse_curie i).map (fun p => p.2)) = .ok ql) :
    dget (zipDict ql (L1 ++ y :: F3)) q = some y := by
  obtain ⟨b1, b2, hb1, hb2, hbs, hlen1⟩ := except_mapM_append hmm
  rw [List.mapM_cons, hy, except_bind_ok] at hb2
  cases hb3 : F3.mapM (fun i => (parse_curie i).map (fun p => p.2)) with
  | error e => rw [hb3, except_bind_error] at hb2; simp at hb2
  | ok b3 =>
      rw [hb3, except_bind_ok, except_pure] at hb2
      have hb2e : q :: b3 = b2 := by injection hb2
      apply @zipDict_last _ _ _ _ (b1.zip L1) (b3.zip F3)
      · rw [hbs, ← hb2e, List.zip_append hlen1]
        rfl
      · intro p hp
        obtain ⟨pq, pz⟩ := p
        have hz := (List.of_mem_zip hp).2
        exact hF3 pz hz pq (mapM_strip_zip hb3 pq pz hp)

/-- C8: when two distinct node ids of one entity type strip to the same
lookup id, `dict(zip(query_list, node_list))` silently lets the later one
win: the earlier node is never written (its entry stays untouched), and
on a successful run whose lookup result carries the shared id the later
node does receive the write. -/
theorem C8_collision_later_wins (client : Client) (node_d : NodeDict)
    (append raw : Bool) (fields : Option String) (limit : Option Int)
    (x y t q : String)
    (hx : parse_curie x = .ok (some t, q)) (hy : parse_curie y = .ok (some t, q))
    (hxy : x ≠ y)
    (hnodup : ((truncateNodes limit node_d).map Prod.fst).Nodup)
    (k1 k2 k3 : List String)
    (hdec : (truncateNodes limit node_d).map Prod.fst = k1 ++ x :: (k2 ++ y :: k3))
    (honly : ∀ z ∈ (truncateNodes limit node_d).map Prod.fst,
        ∀ qz, parse_curie z = .ok (some t, qz) → qz = q → z = x ∨ z = y) :
    (x ∉ (annotate_trapi client (mkTrapi node_d) append raw fields limit).writes.map
        Prod.fst ∧
     dget (annotate_trapi client (mkTrapi node_d) append raw fields limit).nodes x
        = dget (truncateNodes limit node_d) x) ∧
    ((annotate_trapi client (mkTrapi node_d) append raw fields limit).err = none →
      ∀ ql res,
        (((truncateNodes limit node_d).map Prod.fst).filter
            (fun i => decide (resolvedType i = some t))).mapM
            (fun i => (parse_curie i).map (fun p => p.2)) = .ok ql →
        query_biothings client t ql fields = .ok res →
        q ∈ res.map Prod.fst →
        y ∈ (annotate_trapi client (mkTrapi node_d) append raw fields
          limit).writes.map Prod.fst) := by
  rw [annotate_trapi_mkTrapi]
  have hxpass : decide (resolvedType x = some t) = true := by
    simp [resolvedType_of_parse hx]
  have hypass : decide (resolvedType y = some t) = true := by
    simp [resolvedType_of_parse hy]
  have hnd : (k1 ++ x :: (k2 ++ y :: k3)).Nodup := hdec ▸ hnodup
  have h2 := List.Nodup.of_append_right hnd
  have hxrest := (List.nodup_cons.mp h2).1
  have h3 := List.Nodup.of_append_right (List.nodup_cons.mp h2).2
  have hy_k3 : y ∉ k3 := (List.nodup_cons.mp h3).1
  have hx_k3 : x ∉ k3 := fun hc => hxrest (by simp [hc])
  have hF3 : ∀ z ∈ k3.filter (fun i => decide (resolvedType i = some t)),
      ∀ qz, (parse_curie z).map (fun p => p.2) = .ok qz → ¬ qz = q := by
    intro z hz qz hqz hqq
    have hzk : z ∈ k3 := (List.mem_filter.mp hz).1
    have hzt : resolvedType z = some t := of_decide_eq_true (List.mem_filter.mp hz).2
    obtain ⟨⟨tz, lz⟩, hpz⟩ := resolvedType_parse_ok hzt
    have ht2 : tz = some t := by
      unfold resolvedType at hzt
      rw [hpz] at hzt
      cases tz with
      | none => simp at hzt
      | some t0 =>
          have : t0 = t := by simpa using hzt
          rw [this]
    have hlz : lz = qz := by
      rw [hpz] at hqz
      simp only [Except.map] at hqz
      injection hqz
    have hmem : z ∈ (truncateNodes limit node_d).map Prod.fst := by
      rw [hdec]
      simp [hzk]
    rcases honly z hmem qz (by rw [hpz, ht2, hlz]) hqq with rfl | rfl
    · exact hx_k3 hzk
    · exact hy_k3 hzk
  have hdecT : ((truncateNodes limit node_d).map Prod.fst).filter
      (fun i => decide (resolvedType i = some t))
      = (k1.filter (fun i => decide (resolvedType i = some t)) ++ x ::
          k2.filter (fun i => decide (resolvedType i = some t))) ++ y ::
          k3.filter (fun i => decide (resolvedType i = some t)) := by
    rw [hdec]
    simp [List.filter_append, List.filter_cons, hxpass, hypass, List.append_assoc]
  have hymap : (parse_curie y).map (fun p => p.2) = .ok q := by
    rw [hy]
    rfl
  have hlast : ∀ ql', (((truncateNodes limit node_d).map Prod.fst).filter
      (fun i => decide (resolvedType i = some t))).mapM
      (fun i => (parse_curie i).map (fun p => p.2)) = .ok ql' →
      dget (zipDict ql' (((truncateNodes limit node_d).map Prod.fst).filter
        (fun i => decide (resolvedType i = some t)))) q = some y := by
    intro ql' hmm2
    rw [hdecT] at hmm2 ⊢
    exact zipDict_strip_last hymap hF3 hmm2
  have hx_nw : x ∉ (annotate_trapi_core client append raw fields
      limit node_d).writes.map Prod.fst := by
    intro hmem
    obtain ⟨w, hwmem, hw1⟩ := List.mem_map.mp hmem
    obtain ⟨gs, hg, t', ids', hmemg, _, ql', res', q', recs', hmq', hqr', hrm', hzip', _⟩ :=
      core_writes_src hwmem
    rw [hw1] at hzip'
    have hzx : (q', x) ∈ ql'.zip ids' := zipDict_mem hzip'
    have hxids : x ∈ ids' := (List.of_mem_zip hzx).2
    have ht' : resolvedType x = some t' :=
      groupByTypeAux_mem_resolved hg (by simp) t' ids' hmemg x hxids
    have hteq : t' = t := by
      have h4 := (resolvedType_of_parse hx).symm.trans ht'
      injection h4 with h5
      exact h5.symm
    subst hteq
    have hfact := groupByType_group_facts hg t' ids' hmemg
    rw [hfact.1] at hmq' hzx hzip'
    have hq' : q' = q := by
      have hms := mapM_strip_zip hmq' q' x hzx
      rw [hx] at hms
      simp only [Except.map] at hms
      injection hms with h5
      exact h5.symm
    rw [hq'] at hzip'
    have hlast2 := hlast ql' hmq'
    have h6 := hzip'.symm.trans hlast2
    injection h6 with h7
    exact hxy h7
  constructor
  · refine ⟨hx_nw, ?_⟩
    rw [core_nodes]
    exact applyWrites_frame hx_nw
  · intro herr ql res hmq hqr hqmem
    obtain ⟨gs, hg, hpe, _, hwr⟩ := core_run_ok herr
    have hxmemT : x ∈ ((truncateNodes limit node_d).map Prod.fst).filter
        (fun i => decide (resolvedType i = some t)) := by
      rw [List.mem_filter]
      refine ⟨?_, hxpass⟩
      rw [hdec]
      simp
    have hdg : dget gs t = some (((truncateNodes limit node_d).map Prod.fst).filter
        (fun i => decide (resolvedType i = some t))) := by
      rw [groupByType_dget hg t, if_neg ?_]
      intro hc
      rw [List.isEmpty_iff] at hc
      rw [hc] at hxmemT
      simp at hxmemT
    have hmemg : (t, ((truncateNodes limit node_d).map Prod.fst).filter
        (fun i => decide (resolvedType i = some t))) ∈ gs := dget_mem hdg
    have hfact := groupByType_group_facts hg t _ hmemg
    have hpass : (dmem annotator_clients t
        && !(((truncateNodes limit node_d).map Prod.fst).filter
            (fun i => decide (resolvedType i = some t))).isEmpty) = true := by
      rw [hfact.2.2]
      rw [show (((truncateNodes limit node_d).map Prod.fst).filter
          (fun i => decide (resolvedType i = some t))).isEmpty = false from hfact.2.1]
      rfl
    obtain ⟨p, hpmem, hp1⟩ := List.mem_map.mp hqmem
    obtain ⟨pq, precs⟩ := p
    have hpq : pq = q := hp1
    subst hpq
    have horig := hlast ql hmq
    have hc := processGroups_complete hpe t _ hmemg hpass ql res pq precs y hmq hqr
      hpmem horig
    rw [hwr]
    exact hc

theorem C8_witness :
    "PUBCHEM.COMPOUND:123" ∉ (annotate_trapi probeClient (mkTrapi
        [("PUBCHEM.COMPOUND:123", .obj []), ("UNII:123", .obj [])])
        false true none none).writes.map Prod.fst ∧
    "UNII:123" ∈ (annotate_trapi probeClient (mkTrapi
        [("PUBCHEM.COMPOUND:123", .obj []), ("UNII:123", .obj [])])
        false true none none).writes.map Prod.fst := by
  have h := C8_collision_later_wins probeClient
    [("PUBCHEM.COMPOUND:123", .obj []), ("UNII:123", .obj [])]
    false true none none "PUBCHEM.COMPOUND:123" "UNII:123" "chem" "123"
    (by decide) (by decide) (by decide) (by decide) [] [] [] rfl
    (by
      intro z hz qz _ _
      have hz2 : z ∈ ["PUBCHEM.COMPOUND:123", "UNII:123"] := hz
      rcases List.mem_cons.mp hz2 with rfl | hz3
      · exact Or.inl rfl
      · rw [List.mem_singleton] at hz3
        exact Or.inr hz3)
  refine ⟨h.1.1, ?_⟩
  exact h.2 rfl ["123", "123"]
    [("123", [.obj [("query", .str "123"), ("name", .str "N123")],
              .obj [("query", .str "123"), ("name", .str "N123")]])]
    rfl rfl (by decide)

/-! ### Claim C2 (amended) -/

/-- `list2dict(li, "query")` groups without touching the records: the list
under key `k` is exactly the sublist of records whose `query` value is
`k`, in order and unchanged. -/
theorem list2dictAux_query_spec {li : List JValue} {acc m : List (String × List JValue)}
    (h : list2dictAux "query" li acc = .ok m) (k : String) :
    dget m k =
      match dget acc k with
      | some a => some (a ++ li.filter (queryIs k))
      | none =>
          if (li.filter (queryIs k)).isEmpty then none
          else some (li.filter (queryIs k)) := by
  induction li generalizing acc with
  | nil =>
      simp only [list2dictAux] at h
      cases h
      cases hg : dget m k <;> simp
  | cons d rest ih =>
      unfold list2dictAux at h
      cases d with
      | obj o =>
          dsimp only [] at h
          cases hg : dget o "query" with
          | none => rw [hg] at h; simp at h
          | some v =>
              rw [hg] at h
              cases v with
              | str k0 =>
                  dsimp only [] at h
                  have hqi : queryIs k (JValue.obj o) = (k0 == k) := by
                    simp [queryIs, hg]
                  by_cases hk : k0 = k
                  · subst hk
                    have hqi2 : queryIs k0 (JValue.obj o) = true := by
                      rw [hqi]
                      simp
                    cases hout : dget acc k0 with
                    | none =>
                        rw [hout] at h
                        rw [ih h]
                        rw [dget_dset_self]
                        simp [List.filter_cons, hqi2]
                    | some l0 =>
                        rw [hout] at h
                        rw [ih h]
                        rw [dget_dset_self]
                        simp [List.filter_cons, hqi2]
                  · have hqi2 : queryIs k (JValue.obj o) = false := by
                      rw [hqi]
                      simp [hk]
                    cases hout : dget acc k0 with
                    | none =>
                        rw [hout] at h
                        rw [ih h]
                        rw [dget_dset_ne acc k0 k _ hk]
                        simp [List.filter_cons, hqi2]
                    | some l0 =>
                        rw [hout] at h
                        rw [ih h]
                        rw [dget_dset_ne acc k0 k _ hk]
                        simp [List.filter_cons, hqi2]
              | num n => simp at h
              | bool b => simp at h
              | null => simp at h
              | arr l => simp at h
              | obj o2 => simp at h
      | str s => simp at h
      | num n => simp at h
      | bool b => simp at h
      | null => simp at h
      | arr l => simp at h

/-- C2 corrected: `annotate_curie` always returns a single-key mapping
keyed by the original input curie.  With `raw=false` the value under that
key is the transformed record list.  With `raw=true`, however, the value
is not the record list: it is the grouped raw lookup mapping from the
stripped lookup id to its record list — those records are indeed returned
unchanged (exactly the client's records with the matching `query` value,
no query/score stripping and no transform), but they sit one level deeper
under the lookup id. -/
theorem C2_single_key_mapping (client : Client) (curie : String) (t cid : String)
    (fields : Option String) (m : List (String × List JValue))
    (hp : parse_curie curie = .ok (some t, cid))
    (hq : query_biothings client t [cid] fields = .ok m) :
    (annotate_curie client curie true fields
      = .ok [(curie, .obj (m.map (fun p => (p.1, .arr p.2))))]) ∧
    (∀ k recs, dget m k = some recs →
      recs = (clientRawCall client t [cid] fields).filter (queryIs k)) ∧
    (∀ recs recs2, dget m cid = some recs → recs.mapM transform = .ok recs2 →
      annotate_curie client curie false fields = .ok [(curie, .arr recs2)]) := by
  refine ⟨?_, ?_, ?_⟩
  · unfold annotate_curie
    rw [hp]
    dsimp only []
    rw [hq]
    rfl
  · intro k recs hk
    unfold query_biothings at hq
    cases hc : dget annotator_clients t with
    | none => rw [hc] at hq; simp at hq
    | some conf =>
        rw [hc] at hq
        dsimp only [] at hq
        have hspec := list2dictAux_query_spec hq k
        rw [hk] at hspec
        have hraw : clientRawCall client t [cid] fields
            = client t [cid] (fieldsArgOf conf fields) conf.scopes := by
          unfold clientRawCall
          rw [hc]
        rw [hraw]
        simp only [dget_nil] at hspec
        by_cases hemp : ((client t [cid] (fieldsArgOf conf fields)
            conf.scopes).filter (queryIs k)).isEmpty
        · rw [if_pos hemp] at hspec
          simp at hspec
        · rw [if_neg hemp] at hspec
          injection hspec
  · intro recs recs2 hk hmm
    unfold annotate_curie
    rw [hp]
    dsimp only []
    rw [hq]
    dsimp only []
    rw [show (if false = true
        then Except.ok [(curie, JValue.obj (m.map (fun p => (p.1, JValue.arr p.2))))]
        else (match dget m cid with
          | none => Except.error (.keyError cid)
          | some recs =>
              match recs.mapM transform with
              | .error e => Except.error e
              | .ok recs2 => Except.ok [(curie, JValue.arr recs2)] :
            Except PyError (List (String × JValue))))
        = (match dget m cid with
          | none => Except.error (.keyError cid)
          | some recs =>
              match recs.mapM transform with
              | .error e => Except.error e
              | .ok recs2 => Except.ok [(curie, JValue.arr recs2)]) from rfl]
    rw [hk]
    dsimp only []
    rw [hmm]

theorem C2_witness :
    annotate_curie probeClient "NCBIGene:1017" true none
      = .ok [("NCBIGene:1017", .obj [("1017",
          .arr [.obj [("query", .str "1017"), ("name", .str "N1017")]])])] ∧
    [JValue.obj [("query", .str "1017"), ("name", .str "N1017")]]
      = (clientRawCall probeClient "gene" ["1017"] none).filter (queryIs "1017") ∧
    annotate_curie probeClient "NCBIGene:1017" false none
      = .ok [("NCBIGene:1017", .arr [.obj [("name", .str "N1017")]])] := by
  have h := C2_single_key_mapping probeClient "NCBIGene:1017" "gene" "1017" none
    [("1017", [.obj [("query", .str "1017"), ("name", .str "N1017")]])]
    (by decide) rfl
  exact ⟨h.1, h.2.1 "1017"
      [.obj [("query", .str "1017"), ("name", .str "N1017")]] rfl,
    h.2.2 [.obj [("query", .str "1017"), ("name", .str "N1017")]]
      [.obj [("name", .str "N1017")]] rfl rfl⟩

end Annot
